import Mathlib

/-! K-means clustering (`HW14/src/KMeans.C`)

A shallow embedding of the program's data synthesizer, of the centroid
initialisation, of the K-means refinement loop and of the results handed to the
visualisation, followed by the properties proved about them.

Numeric model.  A `double` is a value of `Dbl`: a finite number, an infinity or
NaN, and `+`, `-`, `*`, `/` and `<` on `double` are the IEEE-754 binary64
operations in the default rounding mode, round to nearest with ties to even:
the exact result is rounded to 53 significant bits, gradually underflows below
`2^(-1022)` and overflows to an infinity from `2^1024 - 2^970` on.  Every
operation is rounded on its own, to `double` (no fused multiply-add, no wider
intermediate format).  The two zeros are one value (they compare equal, and the
program never divides by a coordinate).  The sentinel `__DBL_MAX__` is the
largest finite double.

Indexing a `vector` or an array out of range (line 119 with a label outside
`[0, K)`) is undefined behaviour: the model returns `none` there.  An `int`
count or index is a natural number or an integer; the wrap-around of `int`
(more than `2^31 - 1` points) is not modelled.
-/

namespace KMeans

/-! ## The type `double` -/

/-- A `double`: a finite value (the rational it denotes), an infinity with its
sign (`true` for `-inf`), or NaN. -/
inductive Dbl where
  | fin (q : ℚ)
  | inf (neg : Bool)
  | nan
  deriving DecidableEq, Repr

/-- The power `2^k` for an integer exponent. -/
def pow2 (k : Int) : ℚ :=
  if 0 ≤ k then ((2 ^ k.toNat : Nat) : ℚ) else 1 / ((2 ^ (-k).toNat : Nat) : ℚ)

/-- Bisection for the binade of a positive rational `a`: entered with
`2^(lo-1022) ≤ a < 2^(hi-1022)` it returns the `t` in `[lo, hi)` with
`2^(t-1022) ≤ a < 2^(t+1-1022)`. -/
def findExp (a : ℚ) : Nat → Nat → Nat → Nat
  | 0, lo, _ => lo
  | n + 1, lo, hi =>
    if pow2 ((((lo + hi) / 2 : Nat) : Int) - 1022) ≤ a then findExp a n ((lo + hi) / 2) hi
    else findExp a n lo ((lo + hi) / 2)

/-- The exponent of the binade of `a > 0`, kept within the exponents of the
normal doubles: the largest `e` in `[-1022, 1023]` with `2^e ≤ a`, and `-1022`
when `a` is below `2^(-1022)`. -/
def binade (a : ℚ) : Int := ((findExp a 12 0 2046 : Nat) : Int) - 1022

/-- The integer nearest to `m ≥ 0`, the even one of the two when `m` lies
half-way between them. -/
def roundInt (m : ℚ) : Int :=
  if m - (Rat.floor m : ℚ) < 1 / 2 then Rat.floor m
  else if 1 / 2 < m - (Rat.floor m : ℚ) then Rat.floor m + 1
  else if Rat.floor m % 2 = 0 then Rat.floor m else Rat.floor m + 1

/-- Rounding of a rational `a > 0` to the nearest double, ties to even: `a` is
rounded to a multiple of the spacing `2^(e-52)` of its binade `e`, and a result
of `2^1024` or more is `+inf`. -/
def Dbl.roundPos (a : ℚ) : Dbl :=
  if pow2 1024 ≤ (roundInt (a / pow2 (binade a - 52)) : ℚ) * pow2 (binade a - 52) then
    Dbl.inf false
  else Dbl.fin ((roundInt (a / pow2 (binade a - 52)) : ℚ) * pow2 (binade a - 52))

/-- Unary minus. -/
def Dbl.neg : Dbl → Dbl
  | .fin q => .fin (-q)
  | .inf s => .inf (!s)
  | .nan => .nan

/-- Rounding of a rational to the nearest double, ties to even. -/
def Dbl.ofRat (q : ℚ) : Dbl :=
  if q = 0 then .fin 0 else if 0 < q then Dbl.roundPos q else Dbl.neg (Dbl.roundPos (-q))

/-- The conversion `double(n)` of an `int`. -/
def Dbl.ofNat (n : Nat) : Dbl := Dbl.ofRat (n : ℚ)

/-- The literal `0.` -/
def Dbl.zero : Dbl := .fin 0

/-- The operator `+` on `double`. -/
def Dbl.add : Dbl → Dbl → Dbl
  | .fin a, .fin b => Dbl.ofRat (a + b)
  | .fin _, .inf s => .inf s
  | .inf s, .fin _ => .inf s
  | .inf s, .inf t => if s = t then .inf s else .nan
  | _, _ => .nan

/-- The operator `-` on `double`. -/
def Dbl.sub (a b : Dbl) : Dbl := Dbl.add a (Dbl.neg b)

/-- The operator `*` on `double`. -/
def Dbl.mul : Dbl → Dbl → Dbl
  | .fin a, .fin b => Dbl.ofRat (a * b)
  | .fin a, .inf s => if a = 0 then .nan else .inf (xor (decide (a < 0)) s)
  | .inf s, .fin b => if b = 0 then .nan else .inf (xor s (decide (b < 0)))
  | .inf s, .inf t => .inf (xor s t)
  | _, _ => .nan

/-- The operator `/` on `double`; a zero divisor is `+0`, the only zero a
converted count can be. -/
def Dbl.div : Dbl → Dbl → Dbl
  | .fin a, .fin b =>
    if b = 0 then (if a = 0 then .nan else .inf (decide (a < 0))) else Dbl.ofRat (a / b)
  | .fin _, .inf _ => .fin 0
  | .inf s, .fin b => .inf (xor s (decide (b < 0)))
  | .inf _, .inf _ => .nan
  | _, _ => .nan

/-- The operator `<` on `double`: false whenever an operand is NaN. -/
def Dbl.lt : Dbl → Dbl → Bool
  | .fin a, .fin b => decide (a < b)
  | .fin _, .inf s => !s
  | .inf s, .fin _ => s
  | .inf s, .inf t => s && !t
  | _, _ => false

/-- The number a double denotes (zero for an infinity or NaN). -/
def Dbl.toRat : Dbl → ℚ
  | .fin q => q
  | _ => 0

/-- A double that is a number and not negative: a finite value `≥ 0` or `+inf`. -/
def Dbl.NonNeg : Dbl → Prop
  | .fin q => 0 ≤ q
  | .inf s => s = false
  | .nan => False

/-- A finite double. -/
def Dbl.Finite : Dbl → Prop
  | .fin _ => True
  | _ => False

/-! ## Global parameters (lines 26-31) -/

def numDims : Nat := 2
def numClusters : Nat := 4
def numPoints : Nat := 30
def maxIterations : Nat := 20
def dimMax : Dbl := .fin 10
def dimMin : Dbl := .fin (-10)

/-- The compiler's `__DBL_MAX__`: the largest finite IEEE-754 double,
`(2 - 2^(-52)) * 2^1023 = 2^1024 - 2^971`. -/
def DBL_MAX : Dbl := .fin (2 ^ 1024 - 2 ^ 971)

/-! ## `struct Point` (lines 37-55) -/

/-- The `struct Point`: coordinates, nearest checked cluster, and the squared
distance from it. -/
structure Point where
  x : Dbl
  y : Dbl
  cluster : Int
  minDist : Dbl
  deriving DecidableEq, Repr

/-- The "empty" constructor `Point()` (line 45). -/
def Point.empty : Point := ⟨Dbl.zero, Dbl.zero, -1, DBL_MAX⟩

/-- The constructor `Point(double x, double y)` (line 48). -/
def Point.new (x y : Dbl) : Point := ⟨x, y, -1, DBL_MAX⟩

/-- The method `distance` (lines 51-53): `self.distance p`. -/
def Point.distance (self p : Point) : Dbl :=
  Dbl.add (Dbl.mul (Dbl.sub p.x self.x) (Dbl.sub p.x self.x))
    (Dbl.mul (Dbl.sub p.y self.y) (Dbl.sub p.y self.y))

/-! ## Assignment pass (lines 94-103) -/

/-- The body of the inner loop (lines 97-101) for centroid number `c` and one
data point. -/
def assignOne (c : Nat) (cen : Point) (p : Point) : Point :=
  if Dbl.lt (cen.distance p) p.minDist = true then
    { p with minDist := cen.distance p, cluster := (c : Int) }
  else p

/-- The outer loop over the centroids, from centroid number `c` on; each round
runs the inner loop over all the data. -/
def assignLoop : Nat → List Point → List Point → List Point
  | _, [], data => data
  | c, cen :: rest, data => assignLoop (c + 1) rest (data.map (assignOne c cen))

/-- The assignment pass of one iteration. -/
def assignPass (centroids : List Point) (data : List Point) : List Point :=
  assignLoop 0 centroids data

/-! ## Centroid update pass (lines 105-130) -/

/-- The helper vectors `nPoints`, `sumX`, `sumY` (lines 106-107). -/
structure Helper where
  nPoints : List Nat
  sumX : List Dbl
  sumY : List Dbl
  deriving DecidableEq, Repr

/-- Initialisation of the helper vectors (lines 110-114). -/
def Helper.init (k : Nat) : Helper :=
  ⟨List.replicate k 0, List.replicate k Dbl.zero, List.replicate k Dbl.zero⟩

/-- The statement `v[c] = f(v[c])` on a vector, for `c` in range. -/
def updAt {α : Type} (f : α → α) : List α → Nat → List α
  | [], _ => []
  | b :: l, 0 => f b :: l
  | b :: l, c + 1 => b :: updAt f l c

/-- One round of the fill loop on the helper vectors (lines 118-121); a label
outside the vectors is an out-of-range access. -/
def fillOne (h : Helper) (p : Point) : Option Helper :=
  if 0 ≤ p.cluster ∧ p.cluster < (h.nPoints.length : Int) then
    some ⟨updAt (fun n => n + 1) h.nPoints p.cluster.toNat,
          updAt (fun s => Dbl.add s p.x) h.sumX p.cluster.toNat,
          updAt (fun s => Dbl.add s p.y) h.sumY p.cluster.toNat⟩
  else none

/-- The fill loop over the data (lines 117-124), helper vectors only. -/
def fill : Helper → List Point → Option Helper
  | h, [] => some h
  | h, p :: ps => (fillOne h p).bind (fun h1 => fill h1 ps)

/-- Line 123: the best-known distance goes back to the sentinel. -/
def resetDist (p : Point) : Point := { p with minDist := DBL_MAX }

/-- Lines 128-129 for one centroid: both coordinates become
`sum / double(count)`; the other fields of the centroid are untouched. -/
def newCentroid (old : Point) (n : Nat) (sx sy : Dbl) : Point :=
  { old with x := Dbl.div sx (Dbl.ofNat n), y := Dbl.div sy (Dbl.ofNat n) }

/-- The loop over the centroids at lines 127-130, from centroid number `c`. -/
def updateLoop (h : Helper) : Nat → List Point → List Point
  | _, [] => []
  | c, old :: rest =>
    newCentroid old (h.nPoints.getD c 0) (h.sumX.getD c Dbl.zero) (h.sumY.getD c Dbl.zero)
      :: updateLoop h (c + 1) rest

/-- The state of the refinement loop: the data and the centroids. -/
structure KState where
  data : List Point
  centroids : List Point
  deriving DecidableEq, Repr

/-- The centroid update pass (lines 105-130) on a labelled state. -/
def centroidPass (s : KState) : Option KState :=
  (fill (Helper.init s.centroids.length) s.data).map fun h =>
    { data := s.data.map resetDist, centroids := updateLoop h 0 s.centroids }

/-- One full iteration of the refinement loop (lines 92-132). -/
def step (s : KState) : Option KState :=
  centroidPass { data := assignPass s.centroids s.data, centroids := s.centroids }

/-- The refinement loop run for `n` iterations. -/
def refineLoop : Nat → KState → Option KState
  | 0, s => some s
  | n + 1, s => (step s).bind (refineLoop n)

/-! ## The assignment pass, point by point -/

/-- What the assignment pass does to a single point: the rounds of the outer
loop, from centroid number `c` on, seen from that point. -/
def scan : Nat → List Point → Point → Point
  | _, [], p => p
  | c, cen :: rest, p => scan (c + 1) rest (assignOne c cen p)

/-- The outcome of the pass for one point: the centroid `q` at position `j` of
the list won it.  Its computed distance was below the best-known distance the
point came with, no centroid has a computed distance below it, and no earlier
centroid has the same computed distance. -/
def Won (c : Nat) (cs : List Point) (p r : Point) (j : Nat) (q : Point) : Prop :=
  cs[j]? = some q ∧ r.cluster = ((c + j : Nat) : Int) ∧
    r.minDist = q.distance p ∧ Dbl.lt (q.distance p) p.minDist = true ∧
    (∀ q1 ∈ cs, Dbl.lt (q1.distance p) (q.distance p) = false) ∧
    (∀ j1 q1, j1 < j → cs[j1]? = some q1 → q1.distance p ≠ q.distance p)

/-! ## Clusters of a labelled data set -/

/-- The points of the data that carry the label `c`, in input order. -/
def members (c : Nat) (data : List Point) : List Point :=
  data.filter (fun p => p.cluster = (c : Int))

/-- The number of points labelled `c`. -/
def countOf (c : Nat) (data : List Point) : Nat := (members c data).length

/-- The running sum `((s + a1) + a2) + ...` in `double`, in list order. -/
def runSum (s : Dbl) (as : List Dbl) : Dbl := as.foldl Dbl.add s

/-- The running `double` sum, from `0.`, of the `x` coordinates of the points
labelled `c`, in input order. -/
def sumXOf (c : Nat) (data : List Point) : Dbl :=
  runSum Dbl.zero ((members c data).map (fun p => p.x))

/-- The running `double` sum, from `0.`, of the `y` coordinates of the points
labelled `c`, in input order. -/
def sumYOf (c : Nat) (data : List Point) : Dbl :=
  runSum Dbl.zero ((members c data).map (fun p => p.y))

/-- The helper vectors have one entry per cluster. -/
def Helper.Sized (h : Helper) (k : Nat) : Prop :=
  h.nPoints.length = k ∧ h.sumX.length = k ∧ h.sumY.length = k

/-- The squared Euclidean distance between the positions of two points, in
exact arithmetic on the numbers their coordinates denote. -/
def exactDist (q p : Point) : ℚ :=
  (p.x.toRat - q.x.toRat) ^ 2 + (p.y.toRat - q.y.toRat) ^ 2

/-- The exact squared distance from a point to the centroid of the cluster it
is assigned to (zero when the label is out of range). -/
def assignedDist (cs : List Point) (p : Point) : ℚ :=
  match cs[p.cluster.toNat]? with
  | some q => exactDist q p
  | none => 0

/-- The total squared distance of a state: the sum over all points of the exact
squared distance to the centroid of the assigned cluster. -/
def totalDist (s : KState) : ℚ := (s.data.map (assignedDist s.centroids)).sum

/-- The distances line 97 computes from each point to the centroid of the
cluster it is assigned to. -/
def assignedDists (s : KState) : List Dbl :=
  s.data.map (fun p => (s.centroids.getD p.cluster.toNat Point.empty).distance p)

/-- The arithmetic mean, in exact arithmetic, of the `x` coordinates of the
points labelled `c`. -/
def exactMeanX (c : Nat) (data : List Point) : ℚ :=
  ((members c data).map (fun p => p.x.toRat)).sum / (countOf c data : ℚ)

/-- The arithmetic mean, in exact arithmetic, of the `y` coordinates of the
points labelled `c`. -/
def exactMeanY (c : Nat) (data : List Point) : ℚ :=
  ((members c data).map (fun p => p.y.toRat)).sum / (countOf c data : ℚ)

/-! ## Data synthesizer (lines 60-80) -/

/-- The random source `gRandom`, by explicit state passing: each call returns
its value and the next state.  `rndm` is `Rndm()`, `gaus` is `Gaus(mean, sigma)`
and `integer` is `Integer(imax)`. -/
structure Rng (σ : Type) where
  rndm : σ → Dbl × σ
  gaus : σ → Dbl → Dbl → Dbl × σ
  integer : σ → Nat → Nat × σ

/-- The right-hand side of line 68 for the uniform draw `u`. -/
def meanOf (u : Dbl) : Dbl := Dbl.sub (Dbl.mul (Dbl.sub dimMax dimMin) u) dimMin

/-- The right-hand side of line 69 for the uniform draw `u`. -/
def stdevOf (u : Dbl) : Dbl :=
  Dbl.div (Dbl.sub (Dbl.mul (Dbl.sub dimMax dimMin) u) dimMin) (.fin 4)

/-- The body of the loop over the dimensions (lines 68-69): the mean and the
standard deviation of one dimension of one cluster. -/
def genDim {σ : Type} (R : Rng σ) (g : σ) : (Dbl × Dbl) × σ :=
  let u1 := R.rndm g
  let u2 := R.rndm u1.2
  ((meanOf u1.1, stdevOf u2.1), u2.2)

/-- The loop over `n` dimensions (lines 67-70): one row of `means` and `stdevs`. -/
def genDims {σ : Type} (R : Rng σ) : Nat → σ → List (Dbl × Dbl) × σ
  | 0, g => ([], g)
  | n + 1, g =>
    let r := genDim R g
    let rest := genDims R n r.2
    (r.1 :: rest.1, rest.2)

/-- The loop over `n` clusters (lines 66-71): the tables `means` and `stdevs`,
entry `[c][d]` holding the pair `(means[c][d], stdevs[c][d])`. -/
def genParams {σ : Type} (R : Rng σ) : Nat → σ → List (List (Dbl × Dbl)) × σ
  | 0, g => ([], g)
  | n + 1, g =>
    let r := genDims R numDims g
    let rest := genParams R n r.2
    (r.1 :: rest.1, rest.2)

/-- The point built at lines 76-78 for a cluster with parameter row `row`.  C++
leaves the order of the two `Gaus` calls, which are arguments of one
constructor call, to the compiler: `yFirst` tells whether the call for `y` is
made before the call for `x`. -/
def genPoint {σ : Type} (R : Rng σ) (yFirst : Bool) (row : List (Dbl × Dbl)) (g : σ) : Point × σ :=
  if yFirst then
    let b := R.gaus g (row.getD 1 (Dbl.zero, Dbl.zero)).1 (row.getD 1 (Dbl.zero, Dbl.zero)).2
    let a := R.gaus b.2 (row.getD 0 (Dbl.zero, Dbl.zero)).1 (row.getD 0 (Dbl.zero, Dbl.zero)).2
    (Point.new a.1 b.1, a.2)
  else
    let a := R.gaus g (row.getD 0 (Dbl.zero, Dbl.zero)).1 (row.getD 0 (Dbl.zero, Dbl.zero)).2
    let b := R.gaus a.2 (row.getD 1 (Dbl.zero, Dbl.zero)).1 (row.getD 1 (Dbl.zero, Dbl.zero)).2
    (Point.new a.1 b.1, b.2)

/-- The loop over `n` points of one cluster (lines 75-79), pushing onto `data`. -/
def genCluster {σ : Type} (R : Rng σ) (yFirst : Bool) (row : List (Dbl × Dbl)) :
    Nat → σ → List Point → List Point × σ
  | 0, g, data => (data, g)
  | n + 1, g, data =>
    let r := genPoint R yFirst row g
    genCluster R yFirst row n r.2 (data ++ [r.1])

/-- The loop over the clusters (lines 74-80), one round per row of the tables. -/
def genData {σ : Type} (R : Rng σ) (yFirst : Bool) :
    List (List (Dbl × Dbl)) → σ → List Point → List Point × σ
  | [], g, data => (data, g)
  | row :: rows, g, data =>
    let r := genCluster R yFirst row numPoints g data
    genData R yFirst rows r.2 r.1

/-- The data synthesizer (lines 60-80): the data and the state of the random
source after it. -/
def synthesize {σ : Type} (R : Rng σ) (yFirst : Bool) (g : σ) : List Point × σ :=
  let ps := genParams R numClusters g
  genData R yFirst ps.1 ps.2 []

/-- The state of the random source before sample number `k` of the data is
drawn, for the parameter tables `rows` and the state `g0` after the tables were
filled: sample `k` belongs to cluster `k / numPoints`. -/
def sampleState {σ : Type} (R : Rng σ) (yFirst : Bool) (rows : List (List (Dbl × Dbl))) (g0 : σ) :
    Nat → σ
  | 0 => g0
  | k + 1 =>
    (genPoint R yFirst (rows.getD (k / numPoints) []) (sampleState R yFirst rows g0 k)).2

/-- Sample number `k` of the data. -/
def sample {σ : Type} (R : Rng σ) (yFirst : Bool) (rows : List (List (Dbl × Dbl))) (g0 : σ)
    (k : Nat) : Point :=
  (genPoint R yFirst (rows.getD (k / numPoints) []) (sampleState R yFirst rows g0 k)).1

/-- The first `n` samples, in order. -/
def samples {σ : Type} (R : Rng σ) (yFirst : Bool) (rows : List (List (Dbl × Dbl))) (g0 : σ)
    (n : Nat) : List Point :=
  (List.range n).map (sample R yFirst rows g0)

/-! ## Centroid initialisation (lines 85-89) -/

/-- The initialisation loop, `n` rounds to go: each round draws an index with
`Integer(dataSize)` and pushes a copy of that data point.  An index outside the
data is an out-of-range access. -/
def initLoop {σ : Type} (R : Rng σ) (data : List Point) : Nat → σ → List Point → Option (List Point × σ)
  | 0, g, cs => some (cs, g)
  | n + 1, g, cs =>
    let r := R.integer g data.length
    match data[r.1]? with
    | none => none
    | some p => initLoop R data n r.2 (cs ++ [p])

/-- The centroid initialisation for `k` clusters. -/
def initCentroids {σ : Type} (R : Rng σ) (data : List Point) (k : Nat) (g : σ) :
    Option (List Point × σ) :=
  initLoop R data k g []

/-- The indices the random source returns to `n` successive calls
`Integer(m)`, from the state `g`. -/
def drawIndices {σ : Type} (R : Rng σ) (m : Nat) : Nat → σ → List Nat
  | 0, _ => []
  | n + 1, g => (R.integer g m).1 :: drawIndices R m n (R.integer g m).2

/-- A random source whose `Integer` walks through the indices `g mod m`, for
running the initialisation on concrete data. -/
def walkRng : Rng Nat :=
  { rndm := fun g => (.fin (1 / 2), g + 1)
    gaus := fun g m _ => (m, g + 1)
    integer := fun g m => (g % m, g + 3) }

/-- A random source whose `Integer` always returns `0`. -/
def zeroRng : Rng Nat :=
  { rndm := fun g => (.fin (1 / 2), g + 1)
    gaus := fun g m _ => (m, g + 1)
    integer := fun g _ => (0, g + 1) }

/-! ## Results for the visualisation (lines 134-141, 153-178) -/

/-- The arrays `xvals` and `yvals` (lines 135-136), one vector per cluster. -/
structure Output where
  xvals : List (List Dbl)
  yvals : List (List Dbl)
  deriving DecidableEq, Repr

/-- The statement `v[c].push_back(a)` on an array of vectors, for `c` in range. -/
def pushAt : List (List Dbl) → Nat → Dbl → List (List Dbl)
  | [], _, _ => []
  | l :: ls, 0, a => (l ++ [a]) :: ls
  | l :: ls, c + 1, a => l :: pushAt ls c a

/-- One round of the loop at lines 138-141; a label outside the arrays is an
out-of-range access. -/
def collectOne (o : Output) (p : Point) : Option Output :=
  if 0 ≤ p.cluster ∧ p.cluster < (o.xvals.length : Int) then
    some ⟨pushAt o.xvals p.cluster.toNat p.x, pushAt o.yvals p.cluster.toNat p.y⟩
  else none

/-- The loop over the data at lines 138-141. -/
def collect : Output → List Point → Option Output
  | o, [] => some o
  | o, p :: ps => (collectOne o p).bind (fun o1 => collect o1 ps)

/-- The per-cluster coordinate lists built for `k` clusters (lines 135-141). -/
def outputLists (k : Nat) (data : List Point) : Option Output :=
  collect ⟨List.replicate k [], List.replicate k []⟩ data

/-- The palette `colors` (lines 154-162), each entry the hexadecimal colour
handed to `TColor::GetColor`. -/
def colors : List Nat :=
  [0xf58582, 0xdd9a44, 0x7abd42, 0x51c788, 0x50c6ba, 0x4ebaef, 0x9b9afe, 0xe876f0, 0xfb74b7]

/-- The index into the palette used for cluster `c` at line 177. -/
def paletteIndex (c : Nat) : Nat := 2 * c

/-- The marker colour of cluster `c` (line 177), `colors[2*c]`; outside the
palette it is an out-of-range access. -/
def markerColor (c : Nat) : Option Nat := colors[paletteIndex c]?

/-! ## Concrete data -/

/-- A point with the finite coordinates `x`, `y`, the label `c` and the
sentinel as best-known distance, for writing concrete data. -/
def pt (x y : ℚ) (c : Int) : Point := ⟨.fin x, .fin y, c, DBL_MAX⟩

/-! # Properties -/

/-! ## The arithmetic of `double` -/

theorem pow2_pos (k : Int) : 0 < pow2 k := by
  unfold pow2
  split <;> positivity

theorem dbl_lt_irrefl (a : Dbl) : Dbl.lt a a = false := by
  cases a with
  | fin q => simp [Dbl.lt]
  | inf s => cases s <;> rfl
  | nan => rfl

theorem dbl_lt_trans (a b c : Dbl) (h1 : Dbl.lt a b = true) (h2 : Dbl.lt b c = true) :
    Dbl.lt a c = true := by
  cases a with
  | nan => simp [Dbl.lt] at h1
  | fin x =>
    cases b with
    | nan => simp [Dbl.lt] at h1
    | fin y =>
      cases c with
      | nan => simp [Dbl.lt] at h2
      | fin z =>
        simp only [Dbl.lt, decide_eq_true_eq] at h1 h2 ⊢
        exact lt_trans h1 h2
      | inf t => simpa [Dbl.lt] using h2
    | inf s =>
      cases c with
      | nan => simp [Dbl.lt] at h2
      | fin z =>
        simp only [Dbl.lt] at h1 h2
        rw [h2] at h1
        simp at h1
      | inf t =>
        simp only [Dbl.lt] at h1 h2 ⊢
        cases s <;> cases t <;> simp_all
  | inf r =>
    cases b with
    | nan => simp [Dbl.lt] at h1
    | fin y =>
      cases c with
      | nan => simp [Dbl.lt] at h2
      | fin z => simpa [Dbl.lt] using h1
      | inf t =>
        simp only [Dbl.lt] at h1 h2 ⊢
        cases r <;> cases t <;> simp_all
    | inf s =>
      cases c with
      | nan => simp [Dbl.lt] at h2
      | fin z =>
        simp only [Dbl.lt] at h1 h2 ⊢
        cases r <;> cases s <;> simp_all
      | inf t =>
        simp only [Dbl.lt] at h1 h2 ⊢
        cases r <;> cases s <;> cases t <;> simp_all

theorem dbl_neg_neg (a : Dbl) : Dbl.neg (Dbl.neg a) = a := by
  cases a with
  | fin q => simp [Dbl.neg]
  | inf s => simp [Dbl.neg]
  | nan => rfl

theorem dbl_ofRat_zero : Dbl.ofRat 0 = Dbl.fin 0 := by
  simp [Dbl.ofRat]

theorem dbl_ofRat_neg (q : ℚ) : Dbl.ofRat (-q) = Dbl.neg (Dbl.ofRat q) := by
  rcases lt_trichotomy q 0 with h | h | h
  · have h1 : ¬ q = 0 := ne_of_lt h
    have h2 : ¬ 0 < q := not_lt.2 (le_of_lt h)
    have h3 : ¬ -q = 0 := by intro e; apply h1; linarith
    have h4 : 0 < -q := by linarith
    simp only [Dbl.ofRat, h1, h2, h3, h4, if_true, if_false, dbl_neg_neg]
  · subst h
    simp [Dbl.ofRat, Dbl.neg]
  · have h1 : ¬ q = 0 := ne_of_gt h
    have h3 : ¬ -q = 0 := by intro e; apply h1; linarith
    have h4 : ¬ 0 < -q := by linarith
    simp only [Dbl.ofRat, h1, h, h3, h4, if_true, if_false, neg_neg]

theorem dbl_add_comm (a b : Dbl) : Dbl.add a b = Dbl.add b a := by
  cases a with
  | fin x =>
    cases b with
    | fin y => simp only [Dbl.add, add_comm]
    | inf t => rfl
    | nan => rfl
  | inf s =>
    cases b with
    | fin y => rfl
    | inf t => cases s <;> cases t <;> rfl
    | nan => rfl
  | nan => cases b <;> rfl

theorem dbl_neg_add (a b : Dbl) : Dbl.neg (Dbl.add a b) = Dbl.add (Dbl.neg a) (Dbl.neg b) := by
  cases a with
  | fin x =>
    cases b with
    | fin y =>
      show Dbl.neg (Dbl.ofRat (x + y)) = Dbl.ofRat (-x + -y)
      rw [← dbl_ofRat_neg]
      congr 1
      ring
    | inf t => rfl
    | nan => rfl
  | inf s =>
    cases b with
    | fin y => rfl
    | inf t => cases s <;> cases t <;> rfl
    | nan => rfl
  | nan => cases b <;> rfl

/-- Swapping the operands of `-` changes the sign of the result. -/
theorem dbl_sub_swap (a b : Dbl) : Dbl.sub a b = Dbl.neg (Dbl.sub b a) := by
  unfold Dbl.sub
  rw [dbl_neg_add, dbl_neg_neg, dbl_add_comm]

theorem dbl_mul_neg_neg (z : Dbl) : Dbl.mul (Dbl.neg z) (Dbl.neg z) = Dbl.mul z z := by
  cases z with
  | fin q => simp [Dbl.mul, Dbl.neg]
  | inf s => cases s <;> rfl
  | nan => rfl

theorem roundInt_nonneg (m : ℚ) (h : 0 ≤ m) : 0 ≤ roundInt m := by
  have hf : 0 ≤ Rat.floor m := Int.floor_nonneg.2 h
  unfold roundInt
  split
  · exact hf
  · split
    · omega
    · split
      · exact hf
      · omega

theorem dbl_roundPos_nonneg (a : ℚ) (h : 0 < a) : (Dbl.roundPos a).NonNeg := by
  have hu := pow2_pos (binade a - 52)
  have hn : (0 : ℚ) ≤ (roundInt (a / pow2 (binade a - 52)) : ℚ) := by
    exact_mod_cast roundInt_nonneg _ (le_of_lt (div_pos h hu))
  unfold Dbl.roundPos
  split
  · show false = false
    rfl
  · show (0 : ℚ) ≤ _
    exact mul_nonneg hn (le_of_lt hu)

theorem dbl_roundPos_ne_nan (a : ℚ) : Dbl.roundPos a ≠ Dbl.nan := by
  unfold Dbl.roundPos
  split <;> simp

theorem dbl_neg_ne_nan (a : Dbl) (h : a ≠ Dbl.nan) : Dbl.neg a ≠ Dbl.nan := by
  cases a with
  | fin q => simp [Dbl.neg]
  | inf s => simp [Dbl.neg]
  | nan => exact absurd rfl h

theorem dbl_ofRat_ne_nan (q : ℚ) : Dbl.ofRat q ≠ Dbl.nan := by
  unfold Dbl.ofRat
  split
  · simp
  · split
    · exact dbl_roundPos_ne_nan q
    · exact dbl_neg_ne_nan _ (dbl_roundPos_ne_nan _)

theorem dbl_ofRat_nonneg (q : ℚ) (h : 0 ≤ q) : (Dbl.ofRat q).NonNeg := by
  unfold Dbl.ofRat
  by_cases h0 : q = 0
  · rw [if_pos h0]
    show (0 : ℚ) ≤ 0
    exact le_refl _
  · have hpos : 0 < q := lt_of_le_of_ne h (Ne.symm h0)
    rw [if_neg h0, if_pos hpos]
    exact dbl_roundPos_nonneg q hpos

/-- A square in `double` is NaN or not negative. -/
theorem dbl_mul_self_nonneg (z : Dbl) : Dbl.mul z z = Dbl.nan ∨ (Dbl.mul z z).NonNeg := by
  cases z with
  | fin q => right; exact dbl_ofRat_nonneg _ (mul_self_nonneg q)
  | inf s => right; cases s <;> rfl
  | nan => left; rfl

theorem dbl_add_nonneg (a b : Dbl) (ha : a.NonNeg) (hb : b.NonNeg) : (Dbl.add a b).NonNeg := by
  cases a with
  | nan => exact absurd ha (by simp [Dbl.NonNeg])
  | fin x =>
    cases b with
    | nan => exact absurd hb (by simp [Dbl.NonNeg])
    | fin y => exact dbl_ofRat_nonneg _ (add_nonneg ha hb)
    | inf t => exact hb
  | inf s =>
    cases b with
    | nan => exact absurd hb (by simp [Dbl.NonNeg])
    | fin y => exact ha
    | inf t =>
      have hs : s = false := ha
      have ht : t = false := hb
      subst hs ht
      rfl

theorem dbl_lt_zero_of_nonneg (a : Dbl) (h : a.NonNeg) : Dbl.lt a Dbl.zero = false := by
  cases a with
  | fin q =>
    have : 0 ≤ q := h
    simp [Dbl.lt, Dbl.zero, this]
  | inf s =>
    have hs : s = false := h
    subst hs
    rfl
  | nan => rfl

theorem dbl_sub_not_nan (a b : Dbl) (ha : a.Finite) (hb : b.Finite) :
    Dbl.sub a b ≠ Dbl.nan := by
  cases a with
  | fin x =>
    cases b with
    | fin y => exact dbl_ofRat_ne_nan _
    | inf t => exact absurd hb (by simp [Dbl.Finite])
    | nan => exact absurd hb (by simp [Dbl.Finite])
  | inf s => exact absurd ha (by simp [Dbl.Finite])
  | nan => exact absurd ha (by simp [Dbl.Finite])

theorem dbl_sub_self (a : Dbl) (ha : a.Finite) : Dbl.sub a a = Dbl.fin 0 := by
  cases a with
  | fin x => simp [Dbl.sub, Dbl.neg, Dbl.add, Dbl.ofRat]
  | inf s => exact absurd ha (by simp [Dbl.Finite])
  | nan => exact absurd ha (by simp [Dbl.Finite])

/-! ## The assignment pass -/

theorem assignLoop_eq_map (c : Nat) (cs : List Point) (data : List Point) :
    assignLoop c cs data = data.map (scan c cs) := by
  induction cs generalizing c data with
  | nil => simp [assignLoop, scan]
  | cons cen rest ih =>
    simp only [assignLoop, ih, List.map_map]
    apply List.map_congr_left
    intro p _
    simp [scan]

theorem assignPass_eq_map (cs : List Point) (data : List Point) :
    assignPass cs data = data.map (scan 0 cs) :=
  assignLoop_eq_map 0 cs data

theorem assignOne_x (c : Nat) (cen : Point) (p : Point) :
    (assignOne c cen p).x = p.x := by
  unfold assignOne
  split <;> rfl

theorem assignOne_y (c : Nat) (cen : Point) (p : Point) :
    (assignOne c cen p).y = p.y := by
  unfold assignOne
  split <;> rfl

theorem distance_congr (q p r : Point) (hx : r.x = p.x) (hy : r.y = p.y) :
    q.distance r = q.distance p := by
  simp [Point.distance, hx, hy]

theorem scan_x (c : Nat) (cs : List Point) (p : Point) :
    (scan c cs p).x = p.x := by
  induction cs generalizing c p with
  | nil => rfl
  | cons cen rest ih => simp [scan, ih, assignOne_x]

theorem scan_y (c : Nat) (cs : List Point) (p : Point) :
    (scan c cs p).y = p.y := by
  induction cs generalizing c p with
  | nil => rfl
  | cons cen rest ih => simp [scan, ih, assignOne_y]

/-- Either no centroid had a computed distance below the point's best-known
distance and the point is untouched, or the first of the centroids with the
least computed distance won it. -/
theorem scan_spec (c : Nat) (cs : List Point) (p : Point) :
    (scan c cs p = p ∧ ∀ q ∈ cs, Dbl.lt (q.distance p) p.minDist = false) ∨
      ∃ j q, Won c cs p (scan c cs p) j q := by
  induction cs generalizing c p with
  | nil => left; simp [scan]
  | cons q0 rest ih =>
    by_cases hlt0 : Dbl.lt (q0.distance p) p.minDist = true
    · right
      have h1 : assignOne c q0 p =
          { p with minDist := q0.distance p, cluster := (c : Int) } := by
        simp [assignOne, hlt0]
      have hs : scan c (q0 :: rest) p = scan (c + 1) rest (assignOne c q0 p) := by
        simp [scan]
      have hd : ∀ q : Point, q.distance (assignOne c q0 p) = q.distance p :=
        fun q => distance_congr q p _ (assignOne_x _ _ _) (assignOne_y _ _ _)
      have hm1 : (assignOne c q0 p).minDist = q0.distance p := by rw [h1]
      rw [hs]
      rcases ih (c + 1) (assignOne c q0 p) with
        ⟨he, hall⟩ | ⟨j, q, hj, hc, hm, hlt, hmin, hfirst⟩
      · refine ⟨0, q0, by simp, ?_, ?_, hlt0, ?_, ?_⟩
        · rw [he, h1]; simp
        · rw [he, h1]
        · intro q1 hq1
          rcases List.mem_cons.1 hq1 with h | h
          · rw [h]; exact dbl_lt_irrefl _
          · have := hall q1 h
            rw [hd, hm1] at this
            exact this
        · intro j1 q1 hj1 _
          omega
      · rw [hd] at hm
        rw [hd, hm1] at hlt
        refine ⟨j + 1, q, by simpa using hj, ?_, hm, dbl_lt_trans _ _ _ hlt hlt0, ?_, ?_⟩
        · rw [hc]; push_cast; ring
        · intro q1 hq1
          rcases List.mem_cons.1 hq1 with h | h
          · rw [h]
            cases hb : Dbl.lt (q0.distance p) (q.distance p) with
            | false => rfl
            | true =>
              have := dbl_lt_trans _ _ _ hb hlt
              rw [dbl_lt_irrefl] at this
              cases this
          · have := hmin q1 h
            rw [hd, hd] at this
            exact this
        · intro j1 q1 hj1 hq1
          cases j1 with
          | zero =>
            have e : q0 = q1 := by simpa using hq1
            rw [← e]
            intro heq
            rw [heq, dbl_lt_irrefl] at hlt
            cases hlt
          | succ j2 =>
            have := hfirst j2 q1 (by omega) (by simpa using hq1)
            rw [hd, hd] at this
            exact this
    · have hf0 : Dbl.lt (q0.distance p) p.minDist = false := by
        cases hb : Dbl.lt (q0.distance p) p.minDist with
        | false => rfl
        | true => exact absurd hb hlt0
      have h1 : assignOne c q0 p = p := by simp [assignOne, hf0]
      have hs : scan c (q0 :: rest) p = scan (c + 1) rest p := by simp [scan, h1]
      rw [hs]
      rcases ih (c + 1) p with ⟨he, hall⟩ | ⟨j, q, hj, hc, hm, hlt, hmin, hfirst⟩
      · left
        refine ⟨he, ?_⟩
        intro q hq
        rcases List.mem_cons.1 hq with h | h
        · rw [h]; exact hf0
        · exact hall q h
      · right
        refine ⟨j + 1, q, by simpa using hj, ?_, hm, hlt, ?_, ?_⟩
        · rw [hc]; push_cast; ring
        · intro q1 hq1
          rcases List.mem_cons.1 hq1 with h | h
          · rw [h]
            cases hb : Dbl.lt (q0.distance p) (q.distance p) with
            | false => rfl
            | true =>
              have := dbl_lt_trans _ _ _ hb hlt
              rw [hf0] at this
              cases this
          · exact hmin q1 h
        · intro j1 q1 hj1 hq1
          cases j1 with
          | zero =>
            have e : q0 = q1 := by simpa using hq1
            rw [← e]
            intro heq
            rw [← heq, hf0] at hlt
            cases hlt
          | succ j2 =>
            exact hfirst j2 q1 (by omega) (by simpa using hq1)

theorem scan_won_of_reach (c : Nat) (cs : List Point) (p : Point)
    (hreach : ∃ q ∈ cs, Dbl.lt (q.distance p) p.minDist = true) :
    ∃ j q, Won c cs p (scan c cs p) j q := by
  rcases scan_spec c cs p with ⟨_, hall⟩ | h
  · obtain ⟨q, hq, hlt⟩ := hreach
    rw [hall q hq] at hlt
    cases hlt
  · exact h

theorem length_updAt {α : Type} (f : α → α) (l : List α) (c : Nat) :
    (updAt f l c).length = l.length := by
  induction l generalizing c with
  | nil => rfl
  | cons b l ih => cases c <;> simp [updAt, ih]

theorem getD_updAt {α : Type} (f : α → α) (l : List α) (c j : Nat) (d : α) (hc : c < l.length) :
    (updAt f l c).getD j d = if j = c then f (l.getD j d) else l.getD j d := by
  induction l generalizing c j with
  | nil => simp at hc
  | cons b l ih =>
    cases c with
    | zero =>
      cases j with
      | zero => simp [updAt]
      | succ j => simp [updAt]
    | succ c =>
      cases j with
      | zero => simp [updAt]
      | succ j =>
        have := ih c j (by simpa using hc)
        simpa [updAt] using this

theorem members_cons (c : Nat) (p : Point) (ps : List Point) :
    members c (p :: ps) = if p.cluster = (c : Int) then p :: members c ps else members c ps := by
  unfold members
  by_cases h : p.cluster = (c : Int) <;> simp [List.filter_cons, h]

theorem runSum_cons (s a : Dbl) (as : List Dbl) :
    runSum s (a :: as) = runSum (Dbl.add s a) as := rfl

/-- The fill loop succeeds on in-range labels, and then adds to each count the
size of its cluster and continues each running sum with the coordinates of its
cluster, in input order. -/
theorem fill_spec (k : Nat) (h : Helper) (hs : h.Sized k) (data : List Point)
    (hl : ∀ p ∈ data, 0 ≤ p.cluster ∧ p.cluster < (k : Int)) :
    ∃ h1, fill h data = some h1 ∧ h1.Sized k ∧ ∀ c,
      h1.nPoints.getD c 0 = h.nPoints.getD c 0 + countOf c data ∧
      h1.sumX.getD c Dbl.zero =
        runSum (h.sumX.getD c Dbl.zero) ((members c data).map (fun p => p.x)) ∧
      h1.sumY.getD c Dbl.zero =
        runSum (h.sumY.getD c Dbl.zero) ((members c data).map (fun p => p.y)) := by
  induction data generalizing h with
  | nil =>
    exact ⟨h, rfl, hs, fun c => by simp [countOf, members, runSum]⟩
  | cons p ps ih =>
    obtain ⟨hn, hx, hy⟩ := hs
    have hp := hl p (List.mem_cons_self _ _)
    have hlt : p.cluster.toNat < k := by omega
    have hone : fillOne h p = some ⟨updAt (fun n => n + 1) h.nPoints p.cluster.toNat,
        updAt (fun s => Dbl.add s p.x) h.sumX p.cluster.toNat,
        updAt (fun s => Dbl.add s p.y) h.sumY p.cluster.toNat⟩ := by
      unfold fillOne
      rw [if_pos]
      rw [hn]; exact hp
    obtain ⟨h1, hf, hs1, hall⟩ := ih
      ⟨updAt (fun n => n + 1) h.nPoints p.cluster.toNat,
        updAt (fun s => Dbl.add s p.x) h.sumX p.cluster.toNat,
        updAt (fun s => Dbl.add s p.y) h.sumY p.cluster.toNat⟩
      ⟨by rw [length_updAt]; exact hn, by rw [length_updAt]; exact hx,
        by rw [length_updAt]; exact hy⟩
      (fun q hq => hl q (List.mem_cons_of_mem _ hq))
    refine ⟨h1, by simp [fill, hone, hf], hs1, ?_⟩
    intro c
    obtain ⟨a1, a2, a3⟩ := hall c
    rw [a1, a2, a3]
    rw [getD_updAt _ _ _ _ _ (by omega), getD_updAt _ _ _ _ _ (by omega),
      getD_updAt _ _ _ _ _ (by omega)]
    unfold countOf
    rw [members_cons]
    by_cases hc : p.cluster = (c : Int)
    · have hc1 : c = p.cluster.toNat := by omega
      rw [if_pos hc1, if_pos hc1, if_pos hc1, if_pos hc]
      exact ⟨by simp only [List.length_cons]; omega, rfl, rfl⟩
    · have hc1 : ¬ c = p.cluster.toNat := by omega
      rw [if_neg hc1, if_neg hc1, if_neg hc1, if_neg hc]
      exact ⟨rfl, rfl, rfl⟩

theorem fill_some_labels (h : Helper) (data : List Point) (h1 : Helper)
    (hf : fill h data = some h1) :
    h1.nPoints.length = h.nPoints.length ∧
      ∀ p ∈ data, 0 ≤ p.cluster ∧ p.cluster < (h.nPoints.length : Int) := by
  induction data generalizing h with
  | nil =>
    simp [fill] at hf
    subst hf
    simp
  | cons p ps ih =>
    simp only [fill] at hf
    cases hone : fillOne h p with
    | none => simp [hone] at hf
    | some h2 =>
      rw [hone] at hf
      simp only [Option.some_bind] at hf
      unfold fillOne at hone
      split at hone
      · rename_i hp
        simp only [Option.some.injEq] at hone
        subst hone
        have := ih _ hf
        simp only [length_updAt] at this
        refine ⟨this.1, ?_⟩
        intro q hq
        rcases List.mem_cons.1 hq with e | e
        · subst e; exact hp
        · exact this.2 q e
      · cases hone

theorem updateLoop_length (h : Helper) (c : Nat) (cs : List Point) :
    (updateLoop h c cs).length = cs.length := by
  induction cs generalizing c with
  | nil => rfl
  | cons old rest ih => simp [updateLoop, ih]

theorem updateLoop_getElem? (h : Helper) (c : Nat) (cs : List Point) (j : Nat) :
    (updateLoop h c cs)[j]? = (cs[j]?).map (fun old =>
      newCentroid old (h.nPoints.getD (c + j) 0) (h.sumX.getD (c + j) Dbl.zero)
        (h.sumY.getD (c + j) Dbl.zero)) := by
  induction cs generalizing c j with
  | nil => simp [updateLoop]
  | cons old rest ih =>
    cases j with
    | zero => simp [updateLoop]
    | succ j =>
      simp only [updateLoop, List.getElem?_cons_succ, ih]
      have : c + 1 + j = c + (j + 1) := by omega
      rw [this]

theorem getD_replicate_self {α : Type} (k c : Nat) (d : α) :
    (List.replicate k d).getD c d = d := by
  induction k generalizing c with
  | zero => simp
  | succ k ih => cases c <;> simp [List.replicate_succ, ih]

theorem init_sized (k : Nat) : (Helper.init k).Sized k := by
  simp [Helper.init, Helper.Sized]

/-- The centroid update pass on in-range labels: it succeeds, and centroid `c`
is computed from the count and the running coordinate sums of cluster `c`. -/
theorem centroidPass_spec (s : KState)
    (hl : ∀ p ∈ s.data, 0 ≤ p.cluster ∧ p.cluster < (s.centroids.length : Int)) :
    ∃ s1, centroidPass s = some s1 ∧ s1.data = s.data.map resetDist ∧
      s1.centroids.length = s.centroids.length ∧
      ∀ c, s1.centroids[c]? = (s.centroids[c]?).map (fun old =>
        newCentroid old (countOf c s.data) (sumXOf c s.data) (sumYOf c s.data)) := by
  obtain ⟨h1, hf, _, hall⟩ := fill_spec s.centroids.length _ (init_sized _) s.data hl
  refine ⟨{ data := s.data.map resetDist, centroids := updateLoop h1 0 s.centroids },
    by simp [centroidPass, hf], rfl, updateLoop_length _ _ _, ?_⟩
  intro c
  show (updateLoop h1 0 s.centroids)[c]? = _
  rw [updateLoop_getElem?]
  obtain ⟨a1, a2, a3⟩ := hall c
  simp only [Helper.init, getD_replicate_self, Nat.zero_add] at a1 a2 a3
  simp only [Nat.zero_add]
  rw [a1, a2, a3]
  rfl

theorem centroidPass_some_labels (s s1 : KState) (h : centroidPass s = some s1) :
    ∀ p ∈ s.data, 0 ≤ p.cluster ∧ p.cluster < (s.centroids.length : Int) := by
  unfold centroidPass at h
  cases hf : fill (Helper.init s.centroids.length) s.data with
  | none => simp [hf] at h
  | some h1 =>
    have := (fill_some_labels _ _ _ hf).2
    simpa [Helper.init] using this

/-! ## One full iteration -/

theorem members_map_resetDist (c : Nat) (data : List Point) :
    members c (data.map resetDist) = (members c data).map resetDist := by
  unfold members
  rw [List.filter_map]
  rfl

theorem countOf_map_resetDist (c : Nat) (data : List Point) :
    countOf c (data.map resetDist) = countOf c data := by
  simp [countOf, members_map_resetDist]

theorem sumXOf_map_resetDist (c : Nat) (data : List Point) :
    sumXOf c (data.map resetDist) = sumXOf c data := by
  simp only [sumXOf, members_map_resetDist, List.map_map]
  rfl

theorem sumYOf_map_resetDist (c : Nat) (data : List Point) :
    sumYOf c (data.map resetDist) = sumYOf c data := by
  simp only [sumYOf, members_map_resetDist, List.map_map]
  rfl

theorem newCentroid_idem (old : Point) (n : Nat) (sx sy : Dbl) :
    newCentroid (newCentroid old n sx sy) n sx sy = newCentroid old n sx sy := rfl

/-- What a successful iteration did: the labels after its assignment pass were
in range, the data are the assigned data with the distance reset, and each
centroid was recomputed from its cluster. -/
theorem step_some (s s1 : KState) (h : step s = some s1) :
    (∀ p ∈ assignPass s.centroids s.data,
        0 ≤ p.cluster ∧ p.cluster < (s.centroids.length : Int)) ∧
      s1.data = (assignPass s.centroids s.data).map resetDist ∧
      s1.centroids.length = s.centroids.length ∧
      ∀ c, s1.centroids[c]? = (s.centroids[c]?).map (fun old =>
        newCentroid old (countOf c (assignPass s.centroids s.data))
          (sumXOf c (assignPass s.centroids s.data))
          (sumYOf c (assignPass s.centroids s.data))) := by
  have hl := centroidPass_some_labels _ _ h
  obtain ⟨s2, h2, hd, hlen, hc⟩ := centroidPass_spec _ hl
  have e : s2 = s1 := by
    unfold step at h
    rw [h2] at h
    exact Option.some.inj h
  subst e
  exact ⟨hl, hd, hlen, hc⟩

/-- Recomputing the centroids of a state an iteration produced, from data that
differ from its data in the best-known distances only, changes no centroid. -/
theorem recenter (s s1 : KState) (h : step s = some s1) (D : List Point)
    (hD : D.map resetDist = s1.data) (c : Nat) :
    (s1.centroids[c]?).map (fun old =>
        newCentroid old (countOf c D) (sumXOf c D) (sumYOf c D)) = s1.centroids[c]? := by
  obtain ⟨_, hd, _, hc⟩ := step_some s s1 h
  have e1 : countOf c D = countOf c (assignPass s.centroids s.data) := by
    rw [← countOf_map_resetDist c D, hD, hd, countOf_map_resetDist]
  have e2 : sumXOf c D = sumXOf c (assignPass s.centroids s.data) := by
    rw [← sumXOf_map_resetDist c D, hD, hd, sumXOf_map_resetDist]
  have e3 : sumYOf c D = sumYOf c (assignPass s.centroids s.data) := by
    rw [← sumYOf_map_resetDist c D, hD, hd, sumYOf_map_resetDist]
  rw [e1, e2, e3, hc c]
  cases s.centroids[c]? with
  | none => rfl
  | some old => simp [newCentroid_idem]

/-- The centroid update pass reproduces a state an iteration produced, from any
data that differ from its data in the best-known distances only. -/
theorem centroidPass_after_step (s s1 : KState) (h : step s = some s1) (D : List Point)
    (hD : D.map resetDist = s1.data) :
    centroidPass ⟨D, s1.centroids⟩ = some s1 := by
  obtain ⟨hl, hd, hlen, _⟩ := step_some s s1 h
  have hlD : ∀ p ∈ D, 0 ≤ p.cluster ∧ p.cluster < (s1.centroids.length : Int) := by
    intro p hp
    have hmem : resetDist p ∈ s1.data := by
      rw [← hD]; exact List.mem_map_of_mem _ hp
    rw [hd] at hmem
    obtain ⟨a, ha, hap⟩ := List.mem_map.1 hmem
    have hcl0 : (resetDist a).cluster = (resetDist p).cluster := by rw [hap]
    have hcl : a.cluster = p.cluster := hcl0
    rw [hlen, ← hcl]
    exact hl a ha
  obtain ⟨s2, h2, hd2, _, hc2⟩ := centroidPass_spec ⟨D, s1.centroids⟩ hlD
  rw [h2]
  have ed : s2.data = s1.data := by rw [hd2]; exact hD
  have ec : s2.centroids = s1.centroids := by
    apply List.ext_getElem?
    intro c
    rw [hc2 c]
    exact recenter s s1 h D hD c
  cases s2
  cases s1
  simp only at ed ec
  rw [ed, ec]

theorem step_data_reset (s s1 : KState) (h : step s = some s1) :
    s1.data.map resetDist = s1.data := by
  obtain ⟨_, hd, _, _⟩ := step_some s s1 h
  rw [hd, List.map_map]
  rfl

/-- A state an iteration produced whose data come back unchanged from a further
assignment pass and distance reset is a fixed point of the iteration. -/
theorem step_fixed (s s1 : KState) (h : step s = some s1)
    (hA : (assignPass s1.centroids s1.data).map resetDist = s1.data) :
    step s1 = some s1 :=
  centroidPass_after_step s s1 h _ hA

theorem refineLoop_succ (n : Nat) (s : KState) :
    refineLoop (n + 1) s = (refineLoop n s).bind step := by
  induction n generalizing s with
  | zero => simp [refineLoop]
  | succ n ih =>
    have e : refineLoop (n + 1 + 1) s = (step s).bind (refineLoop (n + 1)) := rfl
    rw [e]
    have e2 : refineLoop (n + 1) s = (step s).bind (refineLoop n) := rfl
    rw [e2, Option.bind_assoc]
    congr 1
    funext t
    exact ih t

theorem refineLoop_fixed (s : KState) (h : step s = some s) (n : Nat) :
    refineLoop n s = some s := by
  induction n with
  | zero => rfl
  | succ n ih => simp [refineLoop, h, ih]

theorem step_labels (s s1 : KState) (h : step s = some s1) :
    ∀ p ∈ s1.data, 0 ≤ p.cluster ∧ p.cluster < (s1.centroids.length : Int) := by
  obtain ⟨hl, hd, hlen, _⟩ := step_some s s1 h
  intro p hp
  rw [hd] at hp
  obtain ⟨a, ha, rfl⟩ := List.mem_map.1 hp
  rw [hlen]
  exact hl a ha

/-! ## A single cluster -/

theorem members_of_all (c : Nat) (D : List Point) (h : ∀ p ∈ D, p.cluster = (c : Int)) :
    members c D = D := by
  unfold members
  rw [List.filter_eq_self]
  intro p hp
  simp [h p hp]

theorem assignPass_map_x (cs : List Point) (D : List Point) :
    (assignPass cs D).map (fun p => p.x) = D.map (fun p => p.x) := by
  rw [assignPass_eq_map, List.map_map]
  apply List.map_congr_left
  intro p _
  exact scan_x 0 cs p

theorem assignPass_map_y (cs : List Point) (D : List Point) :
    (assignPass cs D).map (fun p => p.y) = D.map (fun p => p.y) := by
  rw [assignPass_eq_map, List.map_map]
  apply List.map_congr_left
  intro p _
  exact scan_y 0 cs p

theorem assignPass_length (cs : List Point) (D : List Point) :
    (assignPass cs D).length = D.length := by
  rw [assignPass_eq_map, List.length_map]

/-- One iteration with a single centroid, when the assignment pass leaves every
point labelled `0`: the new centroid is the running sum of all the points
divided by their number. -/
theorem single_step (D : List Point) (cen : Point)
    (hall : ∀ p ∈ assignPass [cen] D, p.cluster = 0) :
    step ⟨D, [cen]⟩ = some ⟨(assignPass [cen] D).map resetDist,
      [{ cen with
        x := Dbl.div (runSum Dbl.zero (D.map (fun p => p.x))) (Dbl.ofNat D.length),
        y := Dbl.div (runSum Dbl.zero (D.map (fun p => p.y))) (Dbl.ofNat D.length) }]⟩ := by
  have hl : ∀ p ∈ (KState.mk (assignPass [cen] D) [cen]).data,
      0 ≤ p.cluster ∧ p.cluster < ((KState.mk (assignPass [cen] D) [cen]).centroids.length : Int) := by
    intro p hp
    rw [hall p hp]
    simp
  obtain ⟨s1, h1, hd, hlen, hc⟩ := centroidPass_spec _ hl
  unfold step
  rw [h1]
  have hm : members 0 (assignPass [cen] D) = assignPass [cen] D :=
    members_of_all 0 _ (by simpa using hall)
  have hcount : countOf 0 (assignPass [cen] D) = D.length := by
    rw [countOf, hm, assignPass_length]
  have hsx : sumXOf 0 (assignPass [cen] D) = runSum Dbl.zero (D.map (fun p => p.x)) := by
    rw [sumXOf, hm, assignPass_map_x]
  have hsy : sumYOf 0 (assignPass [cen] D) = runSum Dbl.zero (D.map (fun p => p.y)) := by
    rw [sumYOf, hm, assignPass_map_y]
  have h0 := hc 0
  simp only [List.getElem?_cons_zero, Option.map_some', hcount, hsx, hsy, newCentroid] at h0
  cases s1 with
  | mk d cs =>
    simp only at hd hlen h0
    cases cs with
    | nil => simp at hlen
    | cons v rest =>
      have hr : rest = [] := by
        simp at hlen
        exact hlen
      subst hr
      simp only [List.getElem?_cons_zero, Option.some.injEq] at h0
      rw [hd, h0]

/-! ## Label completeness and nearest-centroid assignment -/

/-- C1 (as amended).  When every point starts the assignment pass with the
sentinel as best-known distance and has some centroid whose squared distance,
as the `double` line 97 computes, compares below the sentinel at line 98, the
pass keeps the number of points and leaves every point with a cluster label
`c`, `0 ≤ c < K`. -/
theorem C1_label_completeness (cs : List Point) (data : List Point)
    (hfresh : ∀ p ∈ data, p.minDist = DBL_MAX)
    (hreach : ∀ p ∈ data, ∃ q ∈ cs, Dbl.lt (q.distance p) DBL_MAX = true) :
    (assignPass cs data).length = data.length ∧
      ∀ r ∈ assignPass cs data, 0 ≤ r.cluster ∧ r.cluster < (cs.length : Int) := by
  rw [assignPass_eq_map]
  refine ⟨by simp, ?_⟩
  intro r hr
  obtain ⟨p, hp, rfl⟩ := List.mem_map.1 hr
  obtain ⟨q, hq, hlt⟩ := hreach p hp
  obtain ⟨j, q1, hj, hc, _⟩ := scan_won_of_reach 0 cs p ⟨q, hq, by rw [hfresh p hp]; exact hlt⟩
  have hjlt : j < cs.length := by
    by_contra hge
    rw [List.getElem?_eq_none (by omega)] at hj
    cases hj
  rw [hc]
  constructor
  · exact Int.natCast_nonneg _
  · exact_mod_cast (by omega : 0 + j < cs.length)

/-- A run of C1: two fresh points and two centroids within reach. -/
theorem C1_label_completeness_witness :
    (assignPass [pt 0 0 (-1), pt 10 0 (-1)] [pt 1 1 (-1), pt 9 2 (-1)]).length =
        [pt 1 1 (-1), pt 9 2 (-1)].length ∧
      ∀ r ∈ assignPass [pt 0 0 (-1), pt 10 0 (-1)] [pt 1 1 (-1), pt 9 2 (-1)],
        0 ≤ r.cluster ∧ r.cluster < (([pt 0 0 (-1), pt 10 0 (-1)].length : Nat) : Int) :=
  C1_label_completeness [pt 0 0 (-1), pt 10 0 (-1)] [pt 1 1 (-1), pt 9 2 (-1)]
    (by decide!) (by decide!)

/-- C1 as stated fails: a fresh point whose only centroid lies at squared
distance `2^1024`, which line 97 computes as `+inf`, not below the sentinel,
keeps the label `-1`. -/
theorem C1_counterexample :
    (1 ≤ [pt (2 ^ 512) 0 (-1)].length ∧ (pt 0 0 (-1)).minDist = DBL_MAX ∧
      (pt (2 ^ 512) 0 (-1)).distance (pt 0 0 (-1)) = Dbl.inf false) ∧
      assignPass [pt (2 ^ 512) 0 (-1)] [pt 0 0 (-1)] = [pt 0 0 (-1)] := by
  refine ⟨⟨by decide, rfl, by decide!⟩, by decide!⟩

/-- C2 (as amended).  A point that starts the assignment pass with the sentinel
as best-known distance and has a centroid whose squared distance, as the
`double` line 97 computes, compares below the sentinel ends the pass with
`minDist` equal to the least of the computed distances (it is the computed
distance of a centroid, and no centroid has a computed distance below it), and
labelled with the smallest index of a centroid at that computed distance. -/
theorem C2_nearest_centroid (cs : List Point) (data : List Point) (i : Nat) (p : Point)
    (hi : data[i]? = some p) (hfresh : p.minDist = DBL_MAX)
    (hreach : ∃ q ∈ cs, Dbl.lt (q.distance p) DBL_MAX = true) :
    ∃ (r : Point) (j : Nat) (q : Point), (assignPass cs data)[i]? = some r ∧
      r.x = p.x ∧ r.y = p.y ∧
      cs[j]? = some q ∧ r.cluster = (j : Int) ∧ r.minDist = q.distance p ∧
      (∀ q1 ∈ cs, Dbl.lt (q1.distance p) r.minDist = false) ∧
      (∀ j1 q1, j1 < j → cs[j1]? = some q1 → q1.distance p ≠ r.minDist) := by
  obtain ⟨q0, hq0, hlt0⟩ := hreach
  obtain ⟨j, q, hj, hc, hm, _, hmin, hfirst⟩ :=
    scan_won_of_reach 0 cs p ⟨q0, hq0, by rw [hfresh]; exact hlt0⟩
  refine ⟨scan 0 cs p, j, q, ?_, scan_x _ _ _, scan_y _ _ _, hj, ?_, hm, ?_, ?_⟩
  · rw [assignPass_eq_map, List.getElem?_map, hi]; rfl
  · rw [hc]; simp
  · rw [hm]; exact hmin
  · rw [hm]; exact hfirst

/-- A run of C2: the point `(9, 2)` against two centroids. -/
theorem C2_nearest_centroid_witness :
    ∃ (r : Point) (j : Nat) (q : Point),
      (assignPass [pt 0 0 (-1), pt 10 0 (-1)] [pt 1 1 (-1), pt 9 2 (-1)])[1]? = some r ∧
      r.x = (pt 9 2 (-1)).x ∧ r.y = (pt 9 2 (-1)).y ∧
      [pt 0 0 (-1), pt 10 0 (-1)][j]? = some q ∧
      r.cluster = (j : Int) ∧ r.minDist = q.distance (pt 9 2 (-1)) ∧
      (∀ q1 ∈ [pt 0 0 (-1), pt 10 0 (-1)],
        Dbl.lt (q1.distance (pt 9 2 (-1))) r.minDist = false) ∧
      (∀ j1 q1, j1 < j → [pt 0 0 (-1), pt 10 0 (-1)][j1]? = some q1 →
        q1.distance (pt 9 2 (-1)) ≠ r.minDist) :=
  C2_nearest_centroid [pt 0 0 (-1), pt 10 0 (-1)] [pt 1 1 (-1), pt 9 2 (-1)] 1 (pt 9 2 (-1))
    rfl rfl (by decide!)

/-- C2 as stated fails, in two ways.  The only centroid of a fresh point lies
at squared distance `2^1024`: after the pass `minDist` is still the sentinel
and the label is `-1`, not the index `0`.  And for the fresh point `(0, 0)` and
the centroids `(1, 2^-30)`, `(1, 0)` the squared distances are `1 + 2^-60` and
`1`, so that centroid `1` alone attains the minimum, but line 97 computes `1`
for both and the point gets the label `0`. -/
theorem C2_counterexample :
    ((pt 0 0 (-1)).minDist = DBL_MAX ∧
      exactDist (pt 0 (2 ^ 512) (-1)) (pt 0 0 (-1)) = 2 ^ 1024 ∧
      (assignPass [pt 0 (2 ^ 512) (-1)] [pt 0 0 (-1)]).map
        (fun r => (r.cluster, r.minDist)) = [(-1, DBL_MAX)]) ∧
      (exactDist (pt 1 0 (-1)) (pt 0 0 (-1)) < exactDist (pt 1 (1 / 2 ^ 30) (-1)) (pt 0 0 (-1)) ∧
        (assignPass [pt 1 (1 / 2 ^ 30) (-1), pt 1 0 (-1)] [pt 0 0 (-1)]).map
          (fun r => (r.cluster, r.minDist)) = [(0, Dbl.fin 1)]) := by
  refine ⟨⟨rfl, by decide!, by decide!⟩, by decide!, by decide!⟩

/-! ## Centroid mean property -/

/-- C3 (as amended).  On a labelled point list with all labels in `[0, K)` the
centroid update pass succeeds, and for every cluster `c` with at least one
assigned point the new centroid's `x` is the `double` quotient of the running
`double` sum of `x` over the points labelled `c`, taken in input order from
`0.`, by their number, and likewise for `y`. -/
theorem C3_centroid_mean (s : KState)
    (hl : ∀ p ∈ s.data, 0 ≤ p.cluster ∧ p.cluster < (s.centroids.length : Int)) :
    ∃ s1, centroidPass s = some s1 ∧ ∀ c, c < s.centroids.length → 0 < countOf c s.data →
      ∃ q, s1.centroids[c]? = some q ∧
        q.x = Dbl.div (sumXOf c s.data) (Dbl.ofNat (countOf c s.data)) ∧
        q.y = Dbl.div (sumYOf c s.data) (Dbl.ofNat (countOf c s.data)) := by
  obtain ⟨s1, h1, _, _, hc⟩ := centroidPass_spec s hl
  refine ⟨s1, h1, ?_⟩
  intro c hlt _
  rw [hc c, List.getElem?_eq_getElem hlt]
  exact ⟨_, rfl, rfl, rfl⟩

/-- A run of C3: three labelled points, two clusters. -/
theorem C3_centroid_mean_witness :
    ∃ s1, centroidPass ⟨[pt 1 2 0, pt 4 4 1, pt 2 6 0], [pt 1 2 (-1), pt 4 4 (-1)]⟩ = some s1 ∧
      ∀ c, c < (KState.mk [pt 1 2 0, pt 4 4 1, pt 2 6 0]
          [pt 1 2 (-1), pt 4 4 (-1)]).centroids.length →
        0 < countOf c (KState.mk [pt 1 2 0, pt 4 4 1, pt 2 6 0]
          [pt 1 2 (-1), pt 4 4 (-1)]).data →
      ∃ q, s1.centroids[c]? = some q ∧
        q.x = Dbl.div (sumXOf c (KState.mk [pt 1 2 0, pt 4 4 1, pt 2 6 0]
            [pt 1 2 (-1), pt 4 4 (-1)]).data)
          (Dbl.ofNat (countOf c (KState.mk [pt 1 2 0, pt 4 4 1, pt 2 6 0]
            [pt 1 2 (-1), pt 4 4 (-1)]).data)) ∧
        q.y = Dbl.div (sumYOf c (KState.mk [pt 1 2 0, pt 4 4 1, pt 2 6 0]
            [pt 1 2 (-1), pt 4 4 (-1)]).data)
          (Dbl.ofNat (countOf c (KState.mk [pt 1 2 0, pt 4 4 1, pt 2 6 0]
            [pt 1 2 (-1), pt 4 4 (-1)]).data)) :=
  C3_centroid_mean ⟨[pt 1 2 0, pt 4 4 1, pt 2 6 0], [pt 1 2 (-1), pt 4 4 (-1)]⟩ (by decide)

/-- C3 as stated fails, by rounding and by overflow.  For the cluster with
`x = 20 + u, 20 + 2u, 20 + 3u`, where `u = 2^-48` is the spacing of the doubles
at `20`, the mean is the double `20 + 2u` but the update gives `20 + 3u`; for
two points with `x = 2^1023` the mean is `2^1023` but the update gives `+inf`. -/
theorem C3_counterexample :
    (centroidPass ⟨[pt (20 + 1 / 2 ^ 48) 20 0, pt (20 + 2 / 2 ^ 48) 20 0,
          pt (20 + 3 / 2 ^ 48) 20 0], [pt 20 20 (-1)]⟩ =
        some ⟨[pt (20 + 1 / 2 ^ 48) 20 0, pt (20 + 2 / 2 ^ 48) 20 0,
          pt (20 + 3 / 2 ^ 48) 20 0], [pt (20 + 3 / 2 ^ 48) 20 (-1)]⟩ ∧
      exactMeanX 0 [pt (20 + 1 / 2 ^ 48) 20 0, pt (20 + 2 / 2 ^ 48) 20 0,
          pt (20 + 3 / 2 ^ 48) 20 0] = 20 + 2 / 2 ^ 48 ∧
      Dbl.ofRat (20 + 2 / 2 ^ 48) = Dbl.fin (20 + 2 / 2 ^ 48)) ∧
      (centroidPass ⟨[pt (2 ^ 1023) 0 0, pt (2 ^ 1023) 0 0], [pt 20 20 (-1)]⟩ =
        some ⟨[pt (2 ^ 1023) 0 0, pt (2 ^ 1023) 0 0], [⟨Dbl.inf false, Dbl.fin 0, -1, DBL_MAX⟩]⟩ ∧
      exactMeanX 0 [pt (2 ^ 1023) 0 0, pt (2 ^ 1023) 0 0] = 2 ^ 1023) := by
  refine ⟨⟨by decide!, by decide!, by decide!⟩, by decide!, by decide!⟩

/-! ## Total squared distance -/

/-- C4 (as amended).  In a state a full iteration returns, the assignment pass
of the next iteration gives every point a label in range whose centroid is not
farther than the centroid of the label the point had: of the squared distances
line 97 computes to the two centroids, the one to the old centroid is not below
the one to the new centroid.  The recomputation of the centroids that follows
rounds, and can raise the total squared distance. -/
theorem C4_reassignment_not_farther (s0 s1 : KState) (h : step s0 = some s1) (i : Nat)
    (p : Point) (hi : s1.data[i]? = some p) :
    ∃ (r q0 q1 : Point), (assignPass s1.centroids s1.data)[i]? = some r ∧
      0 ≤ p.cluster ∧ s1.centroids[p.cluster.toNat]? = some q0 ∧
      0 ≤ r.cluster ∧ s1.centroids[r.cluster.toNat]? = some q1 ∧
      Dbl.lt (q0.distance p) (q1.distance p) = false := by
  have hp := step_labels s0 s1 h p (List.mem_iff_getElem?.2 ⟨i, hi⟩)
  have hlt : p.cluster.toNat < s1.centroids.length := by omega
  have hr : (assignPass s1.centroids s1.data)[i]? = some (scan 0 s1.centroids p) := by
    rw [assignPass_eq_map, List.getElem?_map, hi]; rfl
  rcases scan_spec 0 s1.centroids p with ⟨he, _⟩ | ⟨j, q, hj, hc, _, _, hmin, _⟩
  · refine ⟨scan 0 s1.centroids p, s1.centroids[p.cluster.toNat], s1.centroids[p.cluster.toNat],
      hr, hp.1, List.getElem?_eq_getElem hlt, ?_, ?_, dbl_lt_irrefl _⟩
    · rw [he]; exact hp.1
    · rw [he]; exact List.getElem?_eq_getElem hlt
  · have hcj : (scan 0 s1.centroids p).cluster.toNat = j := by rw [hc]; simp
    refine ⟨scan 0 s1.centroids p, s1.centroids[p.cluster.toNat], q,
      hr, hp.1, List.getElem?_eq_getElem hlt, ?_, ?_, ?_⟩
    · rw [hc]; exact Int.natCast_nonneg _
    · rw [hcj]; exact hj
    · exact hmin _ (List.getElem_mem _)

/-- A run of C4: the second point of the state after the first iteration on
four points and two centroids moves from centroid `1` to centroid `0`. -/
theorem C4_reassignment_not_farther_witness :
    ∃ (r q0 q1 : Point),
      (assignPass (KState.mk [pt 0 0 0, pt 2 0 1, pt 10 0 1, pt 12 0 1]
          [pt 0 0 (-1), pt 8 0 (-1)]).centroids
        (KState.mk [pt 0 0 0, pt 2 0 1, pt 10 0 1, pt 12 0 1]
          [pt 0 0 (-1), pt 8 0 (-1)]).data)[1]? = some r ∧
      0 ≤ (pt 2 0 1).cluster ∧
      (KState.mk [pt 0 0 0, pt 2 0 1, pt 10 0 1, pt 12 0 1]
        [pt 0 0 (-1), pt 8 0 (-1)]).centroids[(pt 2 0 1).cluster.toNat]? = some q0 ∧
      0 ≤ r.cluster ∧
      (KState.mk [pt 0 0 0, pt 2 0 1, pt 10 0 1, pt 12 0 1]
        [pt 0 0 (-1), pt 8 0 (-1)]).centroids[r.cluster.toNat]? = some q1 ∧
      Dbl.lt (q0.distance (pt 2 0 1)) (q1.distance (pt 2 0 1)) = false :=
  C4_reassignment_not_farther
    ⟨[pt 0 0 (-1), pt 2 0 (-1), pt 10 0 (-1), pt 12 0 (-1)], [pt 0 0 (-1), pt 2 0 (-1)]⟩
    ⟨[pt 0 0 0, pt 2 0 1, pt 10 0 1, pt 12 0 1], [pt 0 0 (-1), pt 8 0 (-1)]⟩
    (by decide!) 1 (pt 2 0 1) rfl

/-- C4 as stated fails.  Four points with `y = 20` and `x = 20, 20 + u,
20 + 2u, 20 + 3u`, where `u = 2^-48` is the spacing of the doubles at `20`, and
the initial centroids `data[2]`, `data[1]`: the first iteration labels them
`1, 1, 0, 0` and the second `1, 0, 0, 0`, no cluster is empty at either update,
and the total squared distance is `2 u^2` after the first iteration and
`5 u^2` after the second (the means `20 + 5u/2` and `20 + 2u` are rounded to
`20 + 2u` and `20 + 3u`). -/
theorem C4_counterexample :
    (step ⟨[pt 20 20 (-1), pt (20 + 1 / 2 ^ 48) 20 (-1), pt (20 + 2 / 2 ^ 48) 20 (-1),
          pt (20 + 3 / 2 ^ 48) 20 (-1)],
          [pt (20 + 2 / 2 ^ 48) 20 (-1), pt (20 + 1 / 2 ^ 48) 20 (-1)]⟩ =
        some ⟨[pt 20 20 1, pt (20 + 1 / 2 ^ 48) 20 1, pt (20 + 2 / 2 ^ 48) 20 0,
          pt (20 + 3 / 2 ^ 48) 20 0], [pt (20 + 2 / 2 ^ 48) 20 (-1), pt 20 20 (-1)]⟩ ∧
      step ⟨[pt 20 20 1, pt (20 + 1 / 2 ^ 48) 20 1, pt (20 + 2 / 2 ^ 48) 20 0,
          pt (20 + 3 / 2 ^ 48) 20 0], [pt (20 + 2 / 2 ^ 48) 20 (-1), pt 20 20 (-1)]⟩ =
        some ⟨[pt 20 20 1, pt (20 + 1 / 2 ^ 48) 20 0, pt (20 + 2 / 2 ^ 48) 20 0,
          pt (20 + 3 / 2 ^ 48) 20 0], [pt (20 + 3 / 2 ^ 48) 20 (-1), pt 20 20 (-1)]⟩) ∧
      (totalDist ⟨[pt 20 20 1, pt (20 + 1 / 2 ^ 48) 20 1, pt (20 + 2 / 2 ^ 48) 20 0,
          pt (20 + 3 / 2 ^ 48) 20 0], [pt (20 + 2 / 2 ^ 48) 20 (-1), pt 20 20 (-1)]⟩ =
        2 * (1 / 2 ^ 48) ^ 2 ∧
      totalDist ⟨[pt 20 20 1, pt (20 + 1 / 2 ^ 48) 20 0, pt (20 + 2 / 2 ^ 48) 20 0,
          pt (20 + 3 / 2 ^ 48) 20 0], [pt (20 + 3 / 2 ^ 48) 20 (-1), pt 20 20 (-1)]⟩ =
        5 * (1 / 2 ^ 48) ^ 2) ∧
      (assignedDists ⟨[pt 20 20 1, pt (20 + 1 / 2 ^ 48) 20 1, pt (20 + 2 / 2 ^ 48) 20 0,
          pt (20 + 3 / 2 ^ 48) 20 0], [pt (20 + 2 / 2 ^ 48) 20 (-1), pt 20 20 (-1)]⟩ =
        [Dbl.fin 0, Dbl.fin ((1 / 2 ^ 48) ^ 2), Dbl.fin 0, Dbl.fin ((1 / 2 ^ 48) ^ 2)] ∧
      assignedDists ⟨[pt 20 20 1, pt (20 + 1 / 2 ^ 48) 20 0, pt (20 + 2 / 2 ^ 48) 20 0,
          pt (20 + 3 / 2 ^ 48) 20 0], [pt (20 + 3 / 2 ^ 48) 20 (-1), pt 20 20 (-1)]⟩ =
        [Dbl.fin 0, Dbl.fin (4 * (1 / 2 ^ 48) ^ 2), Dbl.fin ((1 / 2 ^ 48) ^ 2), Dbl.fin 0]) := by
  refine ⟨⟨by decide!, by decide!⟩, ⟨by decide!, by decide!⟩, by decide!, by decide!⟩

/-! ## Converged states and the final state -/

/-- C5.  If two consecutive full iterations produce the same labelling of all
points, the state they produce is a fixed point of the iteration: one further
full iteration succeeds and returns that very state, so every label and every
centroid is unchanged. -/
theorem C5_converged_fixed_point (s0 s1 s2 : KState) (h1 : step s0 = some s1)
    (h2 : step s1 = some s2)
    (hlab : s2.data.map (fun p => p.cluster) = s1.data.map (fun p => p.cluster)) :
    step s2 = some s2 := by
  obtain ⟨_, hd1, _, _⟩ := step_some s0 s1 h1
  obtain ⟨_, hd2, _, _⟩ := step_some s1 s2 h2
  have hA : (assignPass s1.centroids s1.data).map resetDist = s1.data := by
    rw [← hd2]
    rw [hd2, assignPass_eq_map, List.map_map, List.map_map] at hlab
    have hpt := List.map_inj_left.1 hlab
    rw [hd2, assignPass_eq_map, List.map_map]
    conv_rhs => rw [← List.map_id s1.data]
    apply List.map_congr_left
    intro p hp
    have hc := hpt p hp
    have hm : p.minDist = DBL_MAX := by
      rw [hd1] at hp
      obtain ⟨a, _, rfl⟩ := List.mem_map.1 hp
      rfl
    have hx := scan_x 0 s1.centroids p
    have hy := scan_y 0 s1.centroids p
    simp only [Function.comp, resetDist, id] at hc ⊢
    cases p with
    | mk x y cl md =>
      simp only at hm hx hy hc
      rw [hx, hy, hc, hm]
  have e : s2 = s1 := by
    have := step_fixed s0 s1 h1 hA
    rw [this] at h2
    exact (Option.some.inj h2).symm
  rw [e]
  exact step_fixed s0 s1 h1 hA

/-- A run of C5: from the second iteration on the labelling of four points
about two centroids no longer changes. -/
theorem C5_converged_fixed_point_witness :
    step ⟨[pt 0 0 0, pt 2 0 0, pt 10 0 1, pt 12 0 1], [pt 1 0 (-1), pt 11 0 (-1)]⟩ =
      some ⟨[pt 0 0 0, pt 2 0 0, pt 10 0 1, pt 12 0 1], [pt 1 0 (-1), pt 11 0 (-1)]⟩ :=
  C5_converged_fixed_point
    ⟨[pt 0 0 0, pt 2 0 1, pt 10 0 1, pt 12 0 1], [pt 0 0 (-1), pt 8 0 (-1)]⟩
    ⟨[pt 0 0 0, pt 2 0 0, pt 10 0 1, pt 12 0 1], [pt 1 0 (-1), pt 11 0 (-1)]⟩
    ⟨[pt 0 0 0, pt 2 0 0, pt 10 0 1, pt 12 0 1], [pt 1 0 (-1), pt 11 0 (-1)]⟩
    (by decide!) (by decide!) (by rfl)

/-- C7.  The state the refinement loop produces after `n ≥ 1` iterations is
reproduced by one more centroid update pass without a new assignment pass; in
particular that pass yields exactly the loop's final centroids. -/
theorem C7_final_centroids_consistent (s0 s : KState) (n : Nat) (hn : 1 ≤ n)
    (h : refineLoop n s0 = some s) :
    ∃ s1, centroidPass s = some s1 ∧ s1.centroids = s.centroids := by
  obtain ⟨m, rfl⟩ : ∃ m, n = m + 1 := ⟨n - 1, by omega⟩
  rw [refineLoop_succ] at h
  cases hp : refineLoop m s0 with
  | none => rw [hp] at h; cases h
  | some sp =>
    rw [hp] at h
    have hs : step sp = some s := h
    have := centroidPass_after_step sp s hs s.data (step_data_reset sp s hs)
    exact ⟨s, this, rfl⟩

/-- A run of C7: two iterations on four points and two centroids. -/
theorem C7_final_centroids_consistent_witness :
    ∃ s1, centroidPass
        ⟨[pt 0 0 0, pt 2 0 0, pt 10 0 1, pt 12 0 1], [pt 1 0 (-1), pt 11 0 (-1)]⟩ = some s1 ∧
      s1.centroids = (KState.mk [pt 0 0 0, pt 2 0 0, pt 10 0 1, pt 12 0 1]
        [pt 1 0 (-1), pt 11 0 (-1)]).centroids :=
  C7_final_centroids_consistent
    ⟨[pt 0 0 (-1), pt 2 0 (-1), pt 10 0 (-1), pt 12 0 (-1)], [pt 0 0 (-1), pt 2 0 (-1)]⟩
    ⟨[pt 0 0 0, pt 2 0 0, pt 10 0 1, pt 12 0 1], [pt 1 0 (-1), pt 11 0 (-1)]⟩
    2 (by decide) (by decide!)

/-! ## The `K = 1` boundary -/

/-- C6 (as amended).  With a single cluster, points that carry the sentinel as
best-known distance and an initial centroid whose squared distance to every
point, as the `double` line 97 computes, compares below the sentinel, the
refinement loop run for any `n ≥ 1` iterations returns a state with every point
labelled `0` and centroid `0` at the `double` quotient of the running `double`
sum of all points' coordinates, in input order, by their number; it is the
state one iteration returns. -/
theorem C6_single_cluster (data : List Point) (c0 : Point)
    (hfresh : ∀ p ∈ data, p.minDist = DBL_MAX)
    (hreach : ∀ p ∈ data, Dbl.lt (c0.distance p) DBL_MAX = true) (n : Nat) (hn : 1 ≤ n) :
    ∃ s, refineLoop n ⟨data, [c0]⟩ = some s ∧ s.data.length = data.length ∧
      (∀ p ∈ s.data, p.cluster = 0) ∧
      (∃ q, s.centroids = [q] ∧
        q.x = Dbl.div (runSum Dbl.zero (data.map (fun p => p.x))) (Dbl.ofNat data.length) ∧
        q.y = Dbl.div (runSum Dbl.zero (data.map (fun p => p.y))) (Dbl.ofNat data.length)) ∧
      refineLoop n ⟨data, [c0]⟩ = refineLoop 1 ⟨data, [c0]⟩ := by
  have hscan : ∀ p ∈ data, scan 0 [c0] p =
      { p with minDist := c0.distance p, cluster := 0 } := by
    intro p hp
    have : Dbl.lt (c0.distance p) p.minDist = true := by rw [hfresh p hp]; exact hreach p hp
    simp [scan, assignOne, this]
  have hall : ∀ r ∈ assignPass [c0] data, r.cluster = 0 := by
    intro r hr
    rw [assignPass_eq_map] at hr
    obtain ⟨p, hp, rfl⟩ := List.mem_map.1 hr
    rw [hscan p hp]
  have h1 := single_step data c0 hall
  generalize hs1 : KState.mk ((assignPass [c0] data).map resetDist)
      [{ c0 with
        x := Dbl.div (runSum Dbl.zero (data.map (fun p => p.x))) (Dbl.ofNat data.length),
        y := Dbl.div (runSum Dbl.zero (data.map (fun p => p.y))) (Dbl.ofNat data.length) }] =
      s1 at h1
  have hd1 : s1.data = (assignPass [c0] data).map resetDist := by rw [← hs1]
  have hc1 : s1.centroids = [{ c0 with
        x := Dbl.div (runSum Dbl.zero (data.map (fun p => p.x))) (Dbl.ofNat data.length),
        y := Dbl.div (runSum Dbl.zero (data.map (fun p => p.y))) (Dbl.ofNat data.length) }] := by
    rw [← hs1]
  have hlab1 : ∀ p ∈ s1.data, p.cluster = 0 ∧ p.minDist = DBL_MAX := by
    intro p hp
    rw [hd1] at hp
    obtain ⟨a, ha, rfl⟩ := List.mem_map.1 hp
    exact ⟨hall a ha, rfl⟩
  have hA : (assignPass s1.centroids s1.data).map resetDist = s1.data := by
    rw [assignPass_eq_map, List.map_map]
    conv_rhs => rw [← List.map_id s1.data]
    apply List.map_congr_left
    intro p hp
    obtain ⟨hcl, hmd⟩ := hlab1 p hp
    rw [hc1]
    cases p with
    | mk x y cl md =>
      simp only at hcl hmd
      subst hcl hmd
      simp only [Function.comp, scan, assignOne, id]
      split <;> simp [resetDist]
  have hfix := step_fixed _ s1 h1 hA
  have hloop : ∀ m, refineLoop (m + 1) ⟨data, [c0]⟩ = some s1 := by
    intro m
    show (step ⟨data, [c0]⟩).bind (refineLoop m) = some s1
    rw [h1]
    exact refineLoop_fixed s1 hfix m
  obtain ⟨m, rfl⟩ : ∃ m, n = m + 1 := ⟨n - 1, by omega⟩
  refine ⟨s1, hloop m, ?_, fun p hp => (hlab1 p hp).1, ⟨_, hc1, rfl, rfl⟩, ?_⟩
  · rw [hd1, List.length_map, assignPass_length]
  · rw [hloop m, hloop 0]

/-- A run of C6: three points, three iterations. -/
theorem C6_single_cluster_witness :
    ∃ s, refineLoop 3 ⟨[pt 0 0 (-1), pt 3 0 (-1), pt 3 6 (-1)], [pt 3 6 (-1)]⟩ = some s ∧
      s.data.length = [pt 0 0 (-1), pt 3 0 (-1), pt 3 6 (-1)].length ∧
      (∀ p ∈ s.data, p.cluster = 0) ∧
      (∃ q, s.centroids = [q] ∧
        q.x = Dbl.div (runSum Dbl.zero
            ([pt 0 0 (-1), pt 3 0 (-1), pt 3 6 (-1)].map (fun p => p.x)))
          (Dbl.ofNat [pt 0 0 (-1), pt 3 0 (-1), pt 3 6 (-1)].length) ∧
        q.y = Dbl.div (runSum Dbl.zero
            ([pt 0 0 (-1), pt 3 0 (-1), pt 3 6 (-1)].map (fun p => p.y)))
          (Dbl.ofNat [pt 0 0 (-1), pt 3 0 (-1), pt 3 6 (-1)].length)) ∧
      refineLoop 3 ⟨[pt 0 0 (-1), pt 3 0 (-1), pt 3 6 (-1)], [pt 3 6 (-1)]⟩ =
        refineLoop 1 ⟨[pt 0 0 (-1), pt 3 0 (-1), pt 3 6 (-1)], [pt 3 6 (-1)]⟩ :=
  C6_single_cluster [pt 0 0 (-1), pt 3 0 (-1), pt 3 6 (-1)] (pt 3 6 (-1))
    (by decide!) (by decide!) 3 (by decide)

/-- C6 as stated fails, in two ways.  One fresh point and an initial centroid
at squared distance `2^1025` from it: the assignment pass leaves the label
`-1`, and the fill loop then indexes the helper vectors out of range.  And for
three fresh points with `x = 20 + u, 20 + 2u, 20 + 3u`, `u = 2^-48`, and the
first of them as initial centroid, every point is labelled `0` but centroid `0`
is at `20 + 3u`, not at the mean `20 + 2u`. -/
theorem C6_counterexample :
    ((assignPass [pt (2 ^ 512) (2 ^ 512) (-1)] [pt 0 0 (-1)]).map (fun p => p.cluster) = [-1] ∧
      refineLoop 1 ⟨[pt 0 0 (-1)], [pt (2 ^ 512) (2 ^ 512) (-1)]⟩ = none) ∧
      (refineLoop 1 ⟨[pt (20 + 1 / 2 ^ 48) 20 (-1), pt (20 + 2 / 2 ^ 48) 20 (-1),
          pt (20 + 3 / 2 ^ 48) 20 (-1)], [pt (20 + 1 / 2 ^ 48) 20 (-1)]⟩ =
        some ⟨[pt (20 + 1 / 2 ^ 48) 20 0, pt (20 + 2 / 2 ^ 48) 20 0,
          pt (20 + 3 / 2 ^ 48) 20 0], [pt (20 + 3 / 2 ^ 48) 20 (-1)]⟩ ∧
      exactMeanX 0 [pt (20 + 1 / 2 ^ 48) 20 0, pt (20 + 2 / 2 ^ 48) 20 0,
          pt (20 + 3 / 2 ^ 48) 20 0] = 20 + 2 / 2 ^ 48) := by
  refine ⟨⟨by decide!, by decide!⟩, by decide!, by decide!⟩

/-! ## The data synthesizer -/

/-- C8, the code at a failing draw.  For the draw `u = 1/2` line 68 gives the
mean `20`, above `dimMax = 10`; the draws `0` and `1` give `10 = -dimMin` and
`30`, not `dimMin` and `dimMax`: the offset is subtracted where the affine map
onto `[dimMin, dimMax]` adds it. -/
theorem C8_mean_out_of_range :
    meanOf (.fin (1 / 2)) = .fin 20 ∧ Dbl.lt dimMax (meanOf (.fin (1 / 2))) = true ∧
      Dbl.add (Dbl.mul (Dbl.sub dimMax dimMin) (.fin (1 / 2))) dimMin = .fin 0 ∧
      meanOf (.fin 0) = Dbl.neg dimMin ∧ meanOf (.fin 1) = .fin 30 := by
  refine ⟨by decide!, by decide!, by decide!, by decide!, by decide!⟩

/-- C9, the code at a failing draw.  For the draw `u = 3/4` line 69 gives the
standard deviation `25/4`, above `(dimMax - dimMin) / 4 = 5`; the draws `0` and
`1` give `5/2` and `15/2`, not `0` and `5`. -/
theorem C9_stdev_out_of_range :
    stdevOf (.fin (3 / 4)) = .fin (25 / 4) ∧
      Dbl.lt (Dbl.div (Dbl.sub dimMax dimMin) (.fin 4)) (stdevOf (.fin (3 / 4))) = true ∧
      Dbl.div (Dbl.sub dimMax dimMin) (.fin 4) = .fin 5 ∧
      stdevOf (.fin 0) = .fin (5 / 2) ∧ stdevOf (.fin 1) = .fin (15 / 2) := by
  refine ⟨by decide!, by decide!, by decide!, by decide!, by decide!⟩

theorem samples_succ {σ : Type} (R : Rng σ) (yFirst : Bool) (rows : List (List (Dbl × Dbl)))
    (g0 : σ) (n : Nat) :
    samples R yFirst rows g0 (n + 1) = samples R yFirst rows g0 n ++ [sample R yFirst rows g0 n] := by
  simp [samples, List.range_succ]

theorem genCluster_spec {σ : Type} (R : Rng σ) (yFirst : Bool) (rows : List (List (Dbl × Dbl)))
    (g0 : σ) (c n i : Nat) (hin : i + n ≤ numPoints) :
    genCluster R yFirst (rows.getD c []) n (sampleState R yFirst rows g0 (c * numPoints + i))
        (samples R yFirst rows g0 (c * numPoints + i)) =
      (samples R yFirst rows g0 (c * numPoints + i + n),
        sampleState R yFirst rows g0 (c * numPoints + i + n)) := by
  induction n generalizing i with
  | zero => rfl
  | succ n ih =>
    have hdiv : (c * numPoints + i) / numPoints = c := by
      unfold numPoints at hin ⊢
      omega
    have hs : sampleState R yFirst rows g0 (c * numPoints + i + 1) =
        (genPoint R yFirst (rows.getD c []) (sampleState R yFirst rows g0 (c * numPoints + i))).2 := by
      show (genPoint R yFirst (rows.getD ((c * numPoints + i) / numPoints) []) _).2 = _
      rw [hdiv]
    have hp : sample R yFirst rows g0 (c * numPoints + i) =
        (genPoint R yFirst (rows.getD c []) (sampleState R yFirst rows g0 (c * numPoints + i))).1 := by
      unfold sample
      rw [hdiv]
    have := ih (i + 1) (by omega)
    simp only [genCluster]
    rw [← hs, ← hp, ← samples_succ]
    have e : c * numPoints + (i + 1) = c * numPoints + i + 1 := by omega
    have e2 : c * numPoints + (i + 1) + n = c * numPoints + i + (n + 1) := by omega
    rw [e] at this
    rw [this, ← e, e2]

theorem genData_spec {σ : Type} (R : Rng σ) (yFirst : Bool) (pre suf : List (List (Dbl × Dbl)))
    (g0 : σ) :
    genData R yFirst suf (sampleState R yFirst (pre ++ suf) g0 (pre.length * numPoints))
        (samples R yFirst (pre ++ suf) g0 (pre.length * numPoints)) =
      (samples R yFirst (pre ++ suf) g0 ((pre ++ suf).length * numPoints),
        sampleState R yFirst (pre ++ suf) g0 ((pre ++ suf).length * numPoints)) := by
  induction suf generalizing pre with
  | nil => simp [genData]
  | cons row rest ih =>
    have hrow : (pre ++ row :: rest).getD pre.length [] = row := by
      rw [List.getD_eq_getElem?_getD, List.getElem?_append_right (le_refl _)]
      simp
    have h := genCluster_spec R yFirst (pre ++ row :: rest) g0 pre.length numPoints 0 (by omega)
    rw [hrow] at h
    simp only [Nat.add_zero] at h
    simp only [genData]
    rw [h]
    have e : pre ++ row :: rest = (pre ++ [row]) ++ rest := by simp
    have hl : pre.length * numPoints + numPoints = (pre ++ [row]).length * numPoints := by
      simp [Nat.succ_mul]
    rw [hl, e]
    exact ih (pre ++ [row])

theorem genDims_length {σ : Type} (R : Rng σ) (n : Nat) (g : σ) :
    (genDims R n g).1.length = n := by
  induction n generalizing g with
  | zero => rfl
  | succ n ih => simp [genDims, ih]

theorem genParams_length {σ : Type} (R : Rng σ) (n : Nat) (g : σ) :
    (genParams R n g).1.length = n := by
  induction n generalizing g with
  | zero => rfl
  | succ n ih => simp [genParams, ih]

theorem synthesize_eq_samples {σ : Type} (R : Rng σ) (yFirst : Bool) (g : σ) :
    (synthesize R yFirst g).1 =
      samples R yFirst (genParams R numClusters g).1 (genParams R numClusters g).2
        (numClusters * numPoints) := by
  have h := genData_spec R yFirst [] (genParams R numClusters g).1 (genParams R numClusters g).2
  simp only [List.nil_append, List.length_nil, Nat.zero_mul, genParams_length] at h
  unfold synthesize
  have h0 : samples R yFirst (genParams R numClusters g).1 (genParams R numClusters g).2 0 = [] :=
    rfl
  have h1 : sampleState R yFirst (genParams R numClusters g).1 (genParams R numClusters g).2 0 =
      (genParams R numClusters g).2 := rfl
  rw [h0, h1] at h
  simp only []
  rw [h]

theorem genPoint_fresh {σ : Type} (R : Rng σ) (yFirst : Bool) (row : List (Dbl × Dbl)) (g : σ) :
    (genPoint R yFirst row g).1.cluster = -1 ∧ (genPoint R yFirst row g).1.minDist = DBL_MAX := by
  unfold genPoint
  cases yFirst <;> simp [Point.new]

theorem synthesize_fresh {σ : Type} (R : Rng σ) (yFirst : Bool) (g : σ) :
    ∀ pt ∈ (synthesize R yFirst g).1, pt.cluster = -1 ∧ pt.minDist = DBL_MAX := by
  rw [synthesize_eq_samples]
  intro pt hpt
  simp only [samples, List.mem_map] at hpt
  obtain ⟨k, _, rfl⟩ := hpt
  exact genPoint_fresh _ _ _ _

/-- C10.  For every random source, and for either order of the two `Gaus`
calls of a point, the synthesizer produces exactly
`numClusters * numPoints = 120` points, ordered cluster by cluster: the point at
index `c * numPoints + p` is the sample drawn with the parameters of cluster `c`
after `c * numPoints + p` earlier samples.  Every produced point is unlabelled
(`cluster = -1`) with the sentinel as best-known distance. -/
theorem C10_synthesizer_shape {σ : Type} (R : Rng σ) (yFirst : Bool) (g : σ) :
    (synthesize R yFirst g).1.length = numClusters * numPoints ∧
      numClusters * numPoints = 120 ∧
      (∀ c : Fin numClusters, ∀ p : Fin numPoints,
        (synthesize R yFirst g).1[c.val * numPoints + p.val]? =
          some (genPoint R yFirst ((genParams R numClusters g).1.getD c.val [])
            (sampleState R yFirst (genParams R numClusters g).1 (genParams R numClusters g).2
              (c.val * numPoints + p.val))).1) ∧
      ∀ pt ∈ (synthesize R yFirst g).1, pt.cluster = -1 ∧ pt.minDist = DBL_MAX := by
  refine ⟨?_, rfl, ?_, synthesize_fresh R yFirst g⟩
  · rw [synthesize_eq_samples]; simp [samples]
  · rw [synthesize_eq_samples]
    intro c p
    have hc := c.isLt
    have hp := p.isLt
    have hlt : c.val * numPoints + p.val < numClusters * numPoints := by
      unfold numPoints numClusters at *
      omega
    have hdiv : (c.val * numPoints + p.val) / numPoints = c.val := by
      unfold numPoints at hp ⊢
      omega
    simp only [samples, List.getElem?_map, List.getElem?_range hlt, Option.map_some', sample, hdiv]

/-! ## Centroid initialisation -/

theorem initLoop_spec {σ : Type} (R : Rng σ) (data : List Point) (n : Nat) (g : σ)
    (cs : List Point) (hidx : ∀ j ∈ drawIndices R data.length n g, j < data.length) :
    ∃ ps g1, initLoop R data n g cs = some (cs ++ ps, g1) ∧
      ps.map some = (drawIndices R data.length n g).map (fun j => data[j]?) := by
  induction n generalizing g cs with
  | zero => exact ⟨[], g, by simp [initLoop], rfl⟩
  | succ n ih =>
    have h0 : (R.integer g data.length).1 < data.length :=
      hidx _ (by simp [drawIndices])
    obtain ⟨ps, g1, h1, h2⟩ := ih (R.integer g data.length).2
      (cs ++ [data[(R.integer g data.length).1]])
      (fun j hj => hidx j (by simp [drawIndices, hj]))
    refine ⟨data[(R.integer g data.length).1] :: ps, g1, ?_, ?_⟩
    · simp only [initLoop, List.getElem?_eq_getElem h0]
      rw [h1]
      simp
    · simp only [drawIndices, List.map_cons, h2, List.getElem?_eq_getElem h0]

theorem drawIndices_length {σ : Type} (R : Rng σ) (m n : Nat) (g : σ) :
    (drawIndices R m n g).length = n := by
  induction n generalizing g with
  | zero => rfl
  | succ n ih => simp [drawIndices, ih]

/-- C11.  When the `K` indices the random source returns all lie in
`[0, dataSize)`, the initialisation produces exactly `K` centroids, and the
`i`-th centroid is a copy of the data point at the `i`-th sampled index, so it
has the same `(x, y)` coordinates; centroids sampled at equal indices are
identical. -/
theorem C11_centroid_initialisation {σ : Type} (R : Rng σ) (data : List Point) (k : Nat) (g : σ)
    (hidx : ∀ j ∈ drawIndices R data.length k g, j < data.length) :
    ∃ (cs : List Point) (g1 : σ), initCentroids R data k g = some (cs, g1) ∧ cs.length = k ∧
      (∀ (i j : Nat), (drawIndices R data.length k g)[i]? = some j →
        ∃ (p c : Point), data[j]? = some p ∧ cs[i]? = some c ∧ c = p ∧ c.x = p.x ∧ c.y = p.y) ∧
      (∀ (i1 i2 j : Nat), (drawIndices R data.length k g)[i1]? = some j →
        (drawIndices R data.length k g)[i2]? = some j → cs[i1]? = cs[i2]?) := by
  obtain ⟨ps, g1, h1, h2⟩ := initLoop_spec R data k g [] hidx
  have hlen : ps.length = k := by
    have := congrArg List.length h2
    simpa [drawIndices_length] using this
  have hget : ∀ (i j : Nat), (drawIndices R data.length k g)[i]? = some j →
      (ps[i]?).map some = some (data[j]?) := by
    intro i j hj
    have := congrArg (fun l => l[i]?) h2
    simp only [List.getElem?_map, hj, Option.map_some'] at this
    exact this
  refine ⟨ps, g1, by simpa [initCentroids] using h1, hlen, ?_, ?_⟩
  · intro i j hj
    have h := hget i j hj
    cases hp : ps[i]? with
    | none => rw [hp] at h; cases h
    | some c =>
      rw [hp] at h
      simp only [Option.map_some', Option.some.injEq] at h
      exact ⟨c, c, h.symm, rfl, rfl, rfl, rfl⟩
  · intro i1 i2 j h1j h2j
    have a := hget i1 j h1j
    have b := hget i2 j h2j
    rw [← b] at a
    cases h1 : ps[i1]? <;> cases h2 : ps[i2]? <;> simp_all

/-- A run of C11: three centroids drawn from four points at the indices
`1, 0, 3`. -/
theorem C11_centroid_initialisation_witness :
    ∃ (cs : List Point) (g1 : Nat),
      initCentroids walkRng [pt 0 0 (-1), pt 2 0 (-1), pt 10 0 (-1), pt 12 0 (-1)] 3 1 =
        some (cs, g1) ∧ cs.length = 3 ∧
      (∀ (i j : Nat), (drawIndices walkRng
          [pt 0 0 (-1), pt 2 0 (-1), pt 10 0 (-1), pt 12 0 (-1)].length 3 1)[i]? = some j →
        ∃ (p c : Point), [pt 0 0 (-1), pt 2 0 (-1), pt 10 0 (-1), pt 12 0 (-1)][j]? = some p ∧
          cs[i]? = some c ∧ c = p ∧ c.x = p.x ∧ c.y = p.y) ∧
      (∀ (i1 i2 j : Nat), (drawIndices walkRng
          [pt 0 0 (-1), pt 2 0 (-1), pt 10 0 (-1), pt 12 0 (-1)].length 3 1)[i1]? = some j →
        (drawIndices walkRng
          [pt 0 0 (-1), pt 2 0 (-1), pt 10 0 (-1), pt 12 0 (-1)].length 3 1)[i2]? = some j →
        cs[i1]? = cs[i2]?) :=
  C11_centroid_initialisation walkRng
    [pt 0 0 (-1), pt 2 0 (-1), pt 10 0 (-1), pt 12 0 (-1)] 3 1 (by decide)

/-! ## Frame of the refinement loop -/

theorem distance_symm (a b : Point) : a.distance b = b.distance a := by
  unfold Point.distance
  rw [dbl_sub_swap b.x a.x, dbl_sub_swap b.y a.y, dbl_mul_neg_neg, dbl_mul_neg_neg]

theorem distance_nonneg_of_finite (a b : Point) (hax : a.x.Finite) (hay : a.y.Finite)
    (hbx : b.x.Finite) (hby : b.y.Finite) : (a.distance b).NonNeg := by
  unfold Point.distance
  apply dbl_add_nonneg
  · rcases dbl_mul_self_nonneg (Dbl.sub b.x a.x) with h | h
    · have hn := dbl_sub_not_nan b.x a.x hbx hax
      cases hz : Dbl.sub b.x a.x with
      | nan => exact absurd hz hn
      | fin q => rw [hz] at h; exact absurd h (dbl_ofRat_ne_nan _)
      | inf s => rw [hz] at h; cases h
    · exact h
  · rcases dbl_mul_self_nonneg (Dbl.sub b.y a.y) with h | h
    · have hn := dbl_sub_not_nan b.y a.y hby hay
      cases hz : Dbl.sub b.y a.y with
      | nan => exact absurd hz hn
      | fin q => rw [hz] at h; exact absurd h (dbl_ofRat_ne_nan _)
      | inf s => rw [hz] at h; cases h
    · exact h

theorem dbl_add_nan_left (b : Dbl) : Dbl.add Dbl.nan b = Dbl.nan := by
  cases b <;> rfl

theorem dbl_add_nan_right (a : Dbl) : Dbl.add a Dbl.nan = Dbl.nan := by
  cases a <;> rfl

theorem distance_not_lt_zero (a b : Point) : Dbl.lt (a.distance b) Dbl.zero = false := by
  unfold Point.distance
  rcases dbl_mul_self_nonneg (Dbl.sub b.x a.x) with h1 | h1
  · rw [h1, dbl_add_nan_left]; rfl
  · rcases dbl_mul_self_nonneg (Dbl.sub b.y a.y) with h2 | h2
    · rw [h2, dbl_add_nan_right]; rfl
    · exact dbl_lt_zero_of_nonneg _ (dbl_add_nonneg _ _ h1 h2)

/-- C13 (as amended).  `Point::distance` returns the `double` value of
`(b.x - a.x) * (b.x - a.x) + (b.y - a.y) * (b.y - a.y)`, the squared Euclidean
distance up to the rounding of each operation.  It is symmetric and never
compares below zero; for finite coordinates it is a number that is not
negative, and it is zero when the two points have the same coordinates.  It
ignores the fields `cluster` and `minDist`. -/
theorem C13_distance_squared_euclidean (a b : Point) :
    a.distance b = Dbl.add (Dbl.mul (Dbl.sub b.x a.x) (Dbl.sub b.x a.x))
        (Dbl.mul (Dbl.sub b.y a.y) (Dbl.sub b.y a.y)) ∧
      a.distance b = b.distance a ∧
      Dbl.lt (a.distance b) Dbl.zero = false ∧
      (a.x.Finite ∧ a.y.Finite ∧ b.x.Finite ∧ b.y.Finite →
        (a.distance b).NonNeg ∧ (a.x = b.x ∧ a.y = b.y → a.distance b = Dbl.zero)) ∧
      ∀ (c1 c2 : Int) (m1 m2 : Dbl),
        Point.distance { a with cluster := c1, minDist := m1 }
          { b with cluster := c2, minDist := m2 } = a.distance b := by
  refine ⟨rfl, distance_symm a b, distance_not_lt_zero a b, ?_, fun _ _ _ _ => rfl⟩
  rintro ⟨hax, hay, hbx, hby⟩
  refine ⟨distance_nonneg_of_finite a b hax hay hbx hby, ?_⟩
  rintro ⟨hx, hy⟩
  unfold Point.distance
  rw [← hx, ← hy, dbl_sub_self _ hax, dbl_sub_self _ hay]
  decide!

/-- A run of C13: the points `(0, 0)` and `(3, 4)`, at squared distance `25`,
with different labels. -/
theorem C13_distance_squared_euclidean_witness :
    (pt 0 0 0).distance (pt 3 4 1) = Dbl.fin 25 ∧
      ((pt 0 0 0).distance (pt 3 4 1) =
          Dbl.add (Dbl.mul (Dbl.sub (pt 3 4 1).x (pt 0 0 0).x) (Dbl.sub (pt 3 4 1).x (pt 0 0 0).x))
            (Dbl.mul (Dbl.sub (pt 3 4 1).y (pt 0 0 0).y) (Dbl.sub (pt 3 4 1).y (pt 0 0 0).y)) ∧
        (pt 0 0 0).distance (pt 3 4 1) = (pt 3 4 1).distance (pt 0 0 0) ∧
        Dbl.lt ((pt 0 0 0).distance (pt 3 4 1)) Dbl.zero = false ∧
        ((pt 0 0 0).x.Finite ∧ (pt 0 0 0).y.Finite ∧ (pt 3 4 1).x.Finite ∧ (pt 3 4 1).y.Finite →
          ((pt 0 0 0).distance (pt 3 4 1)).NonNeg ∧
            ((pt 0 0 0).x = (pt 3 4 1).x ∧ (pt 0 0 0).y = (pt 3 4 1).y →
              (pt 0 0 0).distance (pt 3 4 1) = Dbl.zero)) ∧
        ∀ (c1 c2 : Int) (m1 m2 : Dbl),
          Point.distance { pt 0 0 0 with cluster := c1, minDist := m1 }
            { pt 3 4 1 with cluster := c2, minDist := m2 } = (pt 0 0 0).distance (pt 3 4 1)) :=
  ⟨by decide!, C13_distance_squared_euclidean (pt 0 0 0) (pt 3 4 1)⟩

/-- C13 as stated fails: the points `(0, 0)` and `(2^-600, 0)` have different
coordinates, but the square `2^-1200` underflows and their distance is zero. -/
theorem C13_counterexample :
    (pt 0 0 0).x ≠ (pt (1 / 2 ^ 600) 0 0).x ∧
      (pt 0 0 0).distance (pt (1 / 2 ^ 600) 0 0) = Dbl.zero ∧
      exactDist (pt 0 0 0) (pt (1 / 2 ^ 600) 0 0) = 1 / 2 ^ 1200 := by
  refine ⟨by decide!, by decide!, by decide!⟩

/-! ## Duplicate centroids -/

/-- With two centroids of identical coordinates at `i < j`, the assignment pass
never gives a point the label `j`: a point keeps a label it had, or takes the
first of the centroids with the least computed distance. -/
theorem scan_label_ne (cs : List Point) (i j : Nat) (qi qj p : Point) (hij : i < j)
    (hi : cs[i]? = some qi) (hj : cs[j]? = some qj)
    (hx : qi.x = qj.x) (hy : qi.y = qj.y)
    (hp : p.cluster ≠ (j : Int) ∨ ∃ q ∈ cs, Dbl.lt (q.distance p) p.minDist = true) :
    (scan 0 cs p).cluster ≠ (j : Int) := by
  have hd : qi.distance p = qj.distance p := by simp [Point.distance, hx, hy]
  rcases scan_spec 0 cs p with ⟨he, hall⟩ | ⟨j1, q, hq, hc, _, _, _, hfirst⟩
  · rcases hp with h | ⟨q, hq, hlt⟩
    · rw [he]; exact h
    · rw [hall q hq] at hlt
      cases hlt
  · intro e
    rw [hc] at e
    have ej : j1 = j := by
      have : ((0 + j1 : Nat) : Int) = (j : Int) := e
      omega
    subst ej
    rw [hj] at hq
    simp only [Option.some.injEq] at hq
    subst hq
    exact hfirst i qi hij hi hd

theorem countOf_eq_zero (c : Nat) (A : List Point) (h : ∀ r ∈ A, r.cluster ≠ (c : Int)) :
    countOf c A = 0 := by
  unfold countOf members
  rw [List.length_eq_zero, List.filter_eq_nil_iff]
  intro r hr
  simpa using h r hr

theorem members_eq_nil (c : Nat) (A : List Point) (h : ∀ r ∈ A, r.cluster ≠ (c : Int)) :
    members c A = [] := by
  unfold members
  rw [List.filter_eq_nil_iff]
  intro r hr
  simpa using h r hr

/-- C14 (as amended).  Let centroids `i < j` have identical coordinates, and
let every point either enter the assignment pass with a label other than `j` or
have a centroid whose squared distance, as the `double` line 97 computes,
compares below its best-known distance.  Then after the pass no point is
labelled `j`, the count the fill loop computes for cluster `j` is `0`, and the
update of centroid `j` divides `0.0` by `0`: both its coordinates are NaN. -/
theorem C14_duplicate_centroid_empty (cs : List Point) (data : List Point)
    (i j : Nat) (qi qj : Point) (hij : i < j)
    (hi : cs[i]? = some qi) (hj : cs[j]? = some qj)
    (hx : qi.x = qj.x) (hy : qi.y = qj.y)
    (hp : ∀ p ∈ data, p.cluster ≠ (j : Int) ∨
      ∃ q ∈ cs, Dbl.lt (q.distance p) p.minDist = true) :
    (∀ r ∈ assignPass cs data, r.cluster ≠ (j : Int)) ∧
      (∀ h, fill (Helper.init cs.length) (assignPass cs data) = some h → h.nPoints.getD j 0 = 0) ∧
      ∀ s1, step ⟨data, cs⟩ = some s1 →
        ∃ q, s1.centroids[j]? = some q ∧ q.x = Dbl.nan ∧ q.y = Dbl.nan := by
  have hlab : ∀ r ∈ assignPass cs data, r.cluster ≠ (j : Int) := by
    intro r hr
    rw [assignPass_eq_map] at hr
    obtain ⟨p, hpm, rfl⟩ := List.mem_map.1 hr
    exact scan_label_ne cs i j qi qj p hij hi hj hx hy (hp p hpm)
  have hcount : countOf j (assignPass cs data) = 0 := countOf_eq_zero j _ hlab
  have hmem : members j (assignPass cs data) = [] := members_eq_nil j _ hlab
  refine ⟨hlab, ?_, ?_⟩
  · intro h hf
    have hl := (fill_some_labels _ _ _ hf).2
    have hk : (Helper.init cs.length).nPoints.length = cs.length := by simp [Helper.init]
    rw [hk] at hl
    obtain ⟨h1, hf1, _, hall⟩ := fill_spec cs.length _ (init_sized _) _ hl
    rw [hf] at hf1
    simp only [Option.some.injEq] at hf1
    subst hf1
    rw [(hall j).1, hcount]
    simp [Helper.init, getD_replicate_self]
  · intro s1 hs
    obtain ⟨_, _, _, hc⟩ := step_some _ s1 hs
    have hcj := hc j
    simp only [hj, Option.map_some', hcount, sumXOf, sumYOf, hmem, List.map_nil] at hcj
    have hnan : Dbl.div (runSum Dbl.zero []) (Dbl.ofNat 0) = Dbl.nan := by decide!
    exact ⟨_, hcj, hnan, hnan⟩

/-- A run of C14 in the first iteration: the random source returns the index
`0` twice, so the two initial centroids are copies of the same data point; the
count of cluster `1` is `0` and centroid `1` comes out of the first centroid
update with NaN coordinates. -/
theorem C14_duplicate_centroid_empty_witness :
    (initCentroids zeroRng [pt 0 0 (-1), pt 1 0 (-1), pt 11 0 (-1)] 2 0 =
        some ([pt 0 0 (-1), pt 0 0 (-1)], 2) ∧
      step ⟨[pt 0 0 (-1), pt 1 0 (-1), pt 11 0 (-1)], [pt 0 0 (-1), pt 0 0 (-1)]⟩ =
        some ⟨[pt 0 0 0, pt 1 0 0, pt 11 0 0],
          [pt 4 0 (-1), ⟨Dbl.nan, Dbl.nan, -1, DBL_MAX⟩]⟩) ∧
      ((∀ r ∈ assignPass [pt 0 0 (-1), pt 0 0 (-1)] [pt 0 0 (-1), pt 1 0 (-1), pt 11 0 (-1)],
          r.cluster ≠ ((1 : Nat) : Int)) ∧
        (∀ h, fill (Helper.init [pt 0 0 (-1), pt 0 0 (-1)].length)
            (assignPass [pt 0 0 (-1), pt 0 0 (-1)]
              [pt 0 0 (-1), pt 1 0 (-1), pt 11 0 (-1)]) = some h →
          h.nPoints.getD 1 0 = 0) ∧
        ∀ s1, step ⟨[pt 0 0 (-1), pt 1 0 (-1), pt 11 0 (-1)], [pt 0 0 (-1), pt 0 0 (-1)]⟩ =
            some s1 →
          ∃ q, s1.centroids[1]? = some q ∧ q.x = Dbl.nan ∧ q.y = Dbl.nan) :=
  ⟨⟨by decide!, by decide!⟩,
    C14_duplicate_centroid_empty [pt 0 0 (-1), pt 0 0 (-1)]
      [pt 0 0 (-1), pt 1 0 (-1), pt 11 0 (-1)] 0 1 (pt 0 0 (-1)) (pt 0 0 (-1))
      (by decide) rfl rfl rfl rfl (by decide!)⟩

/-- C14 as stated fails: a point that enters the pass labelled `1` with the
sentinel as best-known distance, and two identical centroids at squared
distance `2^1024` from it, which line 97 computes as `+inf`.  Neither centroid
compares below the sentinel, the point keeps the label `1`, and the count of
cluster `1` is `1`. -/
theorem C14_counterexample :
    ((pt 0 0 1).minDist = DBL_MAX ∧
      (pt (2 ^ 512) 0 (-1)).distance (pt 0 0 1) = Dbl.inf false) ∧
      (assignPass [pt (2 ^ 512) 0 (-1), pt (2 ^ 512) 0 (-1)] [pt 0 0 1]).map
        (fun r => r.cluster) = [1] ∧
      countOf 1 (assignPass [pt (2 ^ 512) 0 (-1), pt (2 ^ 512) 0 (-1)] [pt 0 0 1]) = 1 := by
  refine ⟨⟨rfl, by decide!⟩, by decide!, by decide!⟩

/-! ## The reset of the best-known distance -/

theorem length_pushAt (l : List (List Dbl)) (c : Nat) (a : Dbl) :
    (pushAt l c a).length = l.length := by
  induction l generalizing c with
  | nil => rfl
  | cons b l ih => cases c <;> simp [pushAt, ih]

theorem getD_pushAt (l : List (List Dbl)) (c j : Nat) (a : Dbl) (hc : c < l.length) :
    (pushAt l c a).getD j [] = l.getD j [] ++ (if j = c then [a] else []) := by
  induction l generalizing c j with
  | nil => simp at hc
  | cons b l ih =>
    cases c with
    | zero =>
      cases j with
      | zero => simp [pushAt]
      | succ j => simp [pushAt]
    | succ c =>
      cases j with
      | zero => simp [pushAt]
      | succ j =>
        have := ih c j (by simpa using hc)
        simpa [pushAt] using this

/-- The loop at lines 138-141 succeeds on in-range labels, and appends to the
lists of each cluster the coordinates of its points, in input order. -/
theorem collect_spec (k : Nat) (o : Output) (hx : o.xvals.length = k) (hy : o.yvals.length = k)
    (data : List Point) (hl : ∀ p ∈ data, 0 ≤ p.cluster ∧ p.cluster < (k : Int)) :
    ∃ o1, collect o data = some o1 ∧ o1.xvals.length = k ∧ o1.yvals.length = k ∧ ∀ c,
      o1.xvals.getD c [] = o.xvals.getD c [] ++ (members c data).map (fun p => p.x) ∧
      o1.yvals.getD c [] = o.yvals.getD c [] ++ (members c data).map (fun p => p.y) := by
  induction data generalizing o with
  | nil => exact ⟨o, rfl, hx, hy, fun c => by simp [members]⟩
  | cons p ps ih =>
    have hp := hl p (List.mem_cons_self _ _)
    have hlt : p.cluster.toNat < k := by omega
    have hone : collectOne o p =
        some ⟨pushAt o.xvals p.cluster.toNat p.x, pushAt o.yvals p.cluster.toNat p.y⟩ := by
      unfold collectOne
      rw [if_pos]
      rw [hx]; exact hp
    obtain ⟨o1, hc, hx1, hy1, hall⟩ := ih
      ⟨pushAt o.xvals p.cluster.toNat p.x, pushAt o.yvals p.cluster.toNat p.y⟩
      (by rw [length_pushAt]; exact hx) (by rw [length_pushAt]; exact hy)
      (fun q hq => hl q (List.mem_cons_of_mem _ hq))
    refine ⟨o1, by simp [collect, hone, hc], hx1, hy1, ?_⟩
    intro c
    obtain ⟨a1, a2⟩ := hall c
    rw [a1, a2, getD_pushAt _ _ _ _ (by omega), getD_pushAt _ _ _ _ (by omega), members_cons]
    by_cases hcp : p.cluster = (c : Int)
    · have hc1 : c = p.cluster.toNat := by omega
      rw [if_pos hc1, if_pos hc1, if_pos hcp]
      simp
    · have hc1 : ¬ c = p.cluster.toNat := by omega
      rw [if_neg hc1, if_neg hc1, if_neg hcp]
      simp

theorem sum_eq_sum_range_getD (l : List Nat) :
    l.sum = ∑ c in Finset.range l.length, l.getD c 0 := by
  induction l with
  | nil => simp
  | cons a l ih =>
    rw [List.sum_cons, List.length_cons, Finset.sum_range_succ', ih]
    simp [add_comm]

/-- The sizes of the clusters of in-range labelled data add up to the number of
points. -/
theorem length_eq_sum_countOf (k : Nat) (A : List Point)
    (hl : ∀ a ∈ A, 0 ≤ a.cluster ∧ a.cluster < (k : Int)) :
    A.length = ∑ c in Finset.range k, countOf c A := by
  induction A with
  | nil => simp [countOf, members]
  | cons a A ih =>
    have ha := hl a (List.mem_cons_self _ _)
    have hsplit : ∀ c, countOf c (a :: A) =
        countOf c A + (if a.cluster.toNat = c then 1 else 0) := by
      intro c
      unfold countOf
      rw [members_cons]
      by_cases h : a.cluster = (c : Int)
      · have : a.cluster.toNat = c := by omega
        simp [h, this]
      · have : ¬ a.cluster.toNat = c := by omega
        simp [h, this]
    simp only [hsplit, Finset.sum_add_distrib, List.length_cons]
    rw [Finset.sum_ite_eq, ← ih (fun b hb => hl b (List.mem_cons_of_mem _ hb))]
    have : a.cluster.toNat ∈ Finset.range k := by
      rw [Finset.mem_range]; omega
    simp [this]

/-- C16.  For a point list whose labels all lie in `[0, K)` the loop at lines
138-141 succeeds; the `x`-list and the `y`-list built for cluster `c` hold the
coordinates of the points labelled `c`, in input order and with equal lengths,
and the lengths of the `K` lists add up to the number of points. -/
theorem C16_output_lists_partition (k : Nat) (data : List Point)
    (hl : ∀ p ∈ data, 0 ≤ p.cluster ∧ p.cluster < (k : Int)) :
    ∃ o, outputLists k data = some o ∧ o.xvals.length = k ∧ o.yvals.length = k ∧
      (∀ c, c < k →
        o.xvals[c]? = some ((members c data).map (fun p => p.x)) ∧
        o.yvals[c]? = some ((members c data).map (fun p => p.y)) ∧
        (o.xvals.getD c []).length = (o.yvals.getD c []).length) ∧
      (o.xvals.map List.length).sum = data.length ∧
      (o.yvals.map List.length).sum = data.length := by
  obtain ⟨o, ho, hx, hy, hall⟩ := collect_spec k ⟨List.replicate k [], List.replicate k []⟩
    (by simp) (by simp) data hl
  have hrep : ∀ c, (List.replicate k ([] : List Dbl)).getD c [] = [] := by
    intro c
    rw [List.getD_eq_getElem?_getD]
    by_cases h : c < k
    · simp [List.getElem?_replicate, h]
    · simp [List.getElem?_replicate, h]
  have hxc : ∀ c, o.xvals.getD c [] = (members c data).map (fun p => p.x) := by
    intro c; rw [(hall c).1]; simp only [hrep, List.nil_append]
  have hyc : ∀ c, o.yvals.getD c [] = (members c data).map (fun p => p.y) := by
    intro c; rw [(hall c).2]; simp only [hrep, List.nil_append]
  have hsum : ∀ l : List (List Dbl), l.length = k →
      (∀ c, (l.getD c []).length = countOf c data) → (l.map List.length).sum = data.length := by
    intro l hlen hc
    rw [sum_eq_sum_range_getD, List.length_map, hlen, length_eq_sum_countOf k data hl]
    apply Finset.sum_congr rfl
    intro c hcr
    have hck : c < k := Finset.mem_range.1 hcr
    rw [← hc c, List.getD_eq_getElem?_getD, List.getD_eq_getElem?_getD, List.getElem?_map,
      List.getElem?_eq_getElem (by omega)]
    rfl
  refine ⟨o, ho, hx, hy, ?_, ?_, ?_⟩
  · intro c hc
    have e1 := hxc c
    have e2 := hyc c
    refine ⟨?_, ?_, ?_⟩
    · rw [List.getD_eq_getElem?_getD, List.getElem?_eq_getElem (by omega)] at e1
      rw [List.getElem?_eq_getElem (by omega)]
      exact congrArg some e1
    · rw [List.getD_eq_getElem?_getD, List.getElem?_eq_getElem (by omega)] at e2
      rw [List.getElem?_eq_getElem (by omega)]
      exact congrArg some e2
    · rw [e1, e2]; simp
  · exact hsum o.xvals hx (fun c => by rw [hxc c]; simp [countOf])
  · exact hsum o.yvals hy (fun c => by rw [hyc c]; simp [countOf])

/-- A run of C16: four labelled points, two clusters. -/
theorem C16_output_lists_partition_witness :
    ∃ o, outputLists 2 [pt 0 5 0, pt 10 6 1, pt 1 7 0, pt 11 8 1] = some o ∧
      o.xvals.length = 2 ∧ o.yvals.length = 2 ∧
      (∀ c, c < 2 →
        o.xvals[c]? = some ((members c [pt 0 5 0, pt 10 6 1, pt 1 7 0, pt 11 8 1]).map
          (fun p => p.x)) ∧
        o.yvals[c]? = some ((members c [pt 0 5 0, pt 10 6 1, pt 1 7 0, pt 11 8 1]).map
          (fun p => p.y)) ∧
        (o.xvals.getD c []).length = (o.yvals.getD c []).length) ∧
      (o.xvals.map List.length).sum = [pt 0 5 0, pt 10 6 1, pt 1 7 0, pt 11 8 1].length ∧
      (o.yvals.map List.length).sum = [pt 0 5 0, pt 10 6 1, pt 1 7 0, pt 11 8 1].length :=
  C16_output_lists_partition 2 [pt 0 5 0, pt 10 6 1, pt 1 7 0, pt 11 8 1] (by decide)

/-! ## The palette -/

/-- C17.  For a cluster index `c < numClusters = 4` the palette index `2 * c`
lies within the 9-entry palette, so the marker colour is read in range, and
distinct cluster indices below `numClusters` get distinct palette indices and
distinct palette entries. -/
theorem C17_palette_indexing (c : Nat) (hc : c < numClusters) :
    colors.length = 9 ∧ paletteIndex c < colors.length ∧ (markerColor c).isSome = true ∧
      ∀ c2, c2 < numClusters →
        (paletteIndex c = paletteIndex c2 → c = c2) ∧ (markerColor c = markerColor c2 → c = c2) := by
  unfold numClusters at hc
  refine ⟨rfl, ?_, ?_, ?_⟩
  · simp only [paletteIndex, colors, List.length_cons, List.length_nil]; omega
  · interval_cases c <;> decide
  · intro c2 hc2
    unfold numClusters at hc2
    refine ⟨fun h => by simp only [paletteIndex] at h; omega, ?_⟩
    interval_cases c <;> interval_cases c2 <;> decide

/-- A run of C17: the last configured cluster, `c = 3`. -/
theorem C17_palette_indexing_witness :
    colors.length = 9 ∧ paletteIndex 3 < colors.length ∧ (markerColor 3).isSome = true ∧
      ∀ c2, c2 < numClusters →
        (paletteIndex 3 = paletteIndex c2 → 3 = c2) ∧ (markerColor 3 = markerColor c2 → 3 = c2) :=
  C17_palette_indexing 3 (by decide)

/-! ## Conservation in the centroid update -/

/-- C18 (as amended).  On a labelled point list with all labels in `[0, K)` the
fill loop succeeds and the counts `nPoints[c]` add up to the number of points;
`nPoints[c]` is the number of points labelled `c`, `sumX[c]` and `sumY[c]` are
the running `double` sums of their coordinates in input order, and the new
centroid `c` is `sumX[c] / double(nPoints[c])`, `sumY[c] / double(nPoints[c])`
in `double` arithmetic.  The quotient is rounded, so the count-weighted sum of
the centroids need not be the coordinate sum of the points. -/
theorem C18_centroid_conservation (s : KState)
    (hl : ∀ p ∈ s.data, 0 ≤ p.cluster ∧ p.cluster < (s.centroids.length : Int)) :
    ∃ h s1, fill (Helper.init s.centroids.length) s.data = some h ∧ centroidPass s = some s1 ∧
      h.nPoints.length = s.centroids.length ∧ h.nPoints.sum = s.data.length ∧
      ∀ c, c < s.centroids.length →
        h.nPoints.getD c 0 = countOf c s.data ∧
        h.sumX.getD c Dbl.zero = sumXOf c s.data ∧
        h.sumY.getD c Dbl.zero = sumYOf c s.data ∧
        ∃ q, s1.centroids[c]? = some q ∧
          q.x = Dbl.div (h.sumX.getD c Dbl.zero) (Dbl.ofNat (h.nPoints.getD c 0)) ∧
          q.y = Dbl.div (h.sumY.getD c Dbl.zero) (Dbl.ofNat (h.nPoints.getD c 0)) := by
  obtain ⟨h, hf, hs, hall⟩ := fill_spec s.centroids.length _ (init_sized _) s.data hl
  obtain ⟨s1, h1, _, _, hc⟩ := centroidPass_spec s hl
  have hn : ∀ c, h.nPoints.getD c 0 = countOf c s.data := by
    intro c
    have := (hall c).1
    simpa [Helper.init, getD_replicate_self] using this
  have hsx : ∀ c, h.sumX.getD c Dbl.zero = sumXOf c s.data := by
    intro c
    have := (hall c).2.1
    simpa [Helper.init, getD_replicate_self, sumXOf] using this
  have hsy : ∀ c, h.sumY.getD c Dbl.zero = sumYOf c s.data := by
    intro c
    have := (hall c).2.2
    simpa [Helper.init, getD_replicate_self, sumYOf] using this
  refine ⟨h, s1, hf, h1, hs.1, ?_, ?_⟩
  · rw [sum_eq_sum_range_getD, hs.1, length_eq_sum_countOf _ s.data hl]
    exact Finset.sum_congr rfl (fun c _ => hn c)
  · intro c hck
    refine ⟨hn c, hsx c, hsy c, ?_⟩
    rw [hc c, List.getElem?_eq_getElem hck, hn c, hsx c, hsy c]
    exact ⟨_, rfl, rfl, rfl⟩

/-- A run of C18: four labelled points, two clusters. -/
theorem C18_centroid_conservation_witness :
    ∃ h s1, fill (Helper.init (KState.mk [pt 0 5 0, pt 10 6 1, pt 1 7 0, pt 11 8 1]
          [pt 0 5 (-1), pt 10 6 (-1)]).centroids.length)
        (KState.mk [pt 0 5 0, pt 10 6 1, pt 1 7 0, pt 11 8 1]
          [pt 0 5 (-1), pt 10 6 (-1)]).data = some h ∧
      centroidPass (KState.mk [pt 0 5 0, pt 10 6 1, pt 1 7 0, pt 11 8 1]
          [pt 0 5 (-1), pt 10 6 (-1)]) = some s1 ∧
      h.nPoints.length = (KState.mk [pt 0 5 0, pt 10 6 1, pt 1 7 0, pt 11 8 1]
          [pt 0 5 (-1), pt 10 6 (-1)]).centroids.length ∧
      h.nPoints.sum = (KState.mk [pt 0 5 0, pt 10 6 1, pt 1 7 0, pt 11 8 1]
          [pt 0 5 (-1), pt 10 6 (-1)]).data.length ∧
      ∀ c, c < (KState.mk [pt 0 5 0, pt 10 6 1, pt 1 7 0, pt 11 8 1]
          [pt 0 5 (-1), pt 10 6 (-1)]).centroids.length →
        h.nPoints.getD c 0 = countOf c (KState.mk [pt 0 5 0, pt 10 6 1, pt 1 7 0, pt 11 8 1]
          [pt 0 5 (-1), pt 10 6 (-1)]).data ∧
        h.sumX.getD c Dbl.zero = sumXOf c (KState.mk [pt 0 5 0, pt 10 6 1, pt 1 7 0, pt 11 8 1]
          [pt 0 5 (-1), pt 10 6 (-1)]).data ∧
        h.sumY.getD c Dbl.zero = sumYOf c (KState.mk [pt 0 5 0, pt 10 6 1, pt 1 7 0, pt 11 8 1]
          [pt 0 5 (-1), pt 10 6 (-1)]).data ∧
        ∃ q, s1.centroids[c]? = some q ∧
          q.x = Dbl.div (h.sumX.getD c Dbl.zero) (Dbl.ofNat (h.nPoints.getD c 0)) ∧
          q.y = Dbl.div (h.sumY.getD c Dbl.zero) (Dbl.ofNat (h.nPoints.getD c 0)) :=
  C18_centroid_conservation
    ⟨[pt 0 5 0, pt 10 6 1, pt 1 7 0, pt 11 8 1], [pt 0 5 (-1), pt 10 6 (-1)]⟩ (by decide)

/-- C18 as stated fails for the weighted sum.  Three points labelled `0` with
the `x` coordinates `0.1`, `0.3`, `3.3` (the doubles nearest to these
decimals): the count is `3`, and three times the new centroid's `x` is neither
the sum of the three coordinates nor, computed in `double`, the running sum
`sumX[0]` the centroid was divided from. -/
theorem C18_counterexample :
    ∃ h s1, fill (Helper.init 1) [⟨Dbl.ofRat (1 / 10), Dbl.zero, 0, DBL_MAX⟩,
          ⟨Dbl.ofRat (3 / 10), Dbl.zero, 0, DBL_MAX⟩,
          ⟨Dbl.ofRat (33 / 10), Dbl.zero, 0, DBL_MAX⟩] = some h ∧
      centroidPass ⟨[⟨Dbl.ofRat (1 / 10), Dbl.zero, 0, DBL_MAX⟩,
          ⟨Dbl.ofRat (3 / 10), Dbl.zero, 0, DBL_MAX⟩,
          ⟨Dbl.ofRat (33 / 10), Dbl.zero, 0, DBL_MAX⟩], [pt 0 0 (-1)]⟩ = some s1 ∧
      h.nPoints = [3] ∧
      (3 : ℚ) * ((s1.centroids.map (fun q => q.x.toRat)).sum) ≠
        (Dbl.ofRat (1 / 10)).toRat + (Dbl.ofRat (3 / 10)).toRat + (Dbl.ofRat (33 / 10)).toRat ∧
      s1.centroids.map (fun q => Dbl.mul (Dbl.ofNat 3) q.x) ≠ h.sumX := by
  refine ⟨⟨[3], [Dbl.fin (8331659310635417 / 2251799813685248)], [Dbl.zero]⟩,
    ⟨[⟨Dbl.ofRat (1 / 10), Dbl.zero, 0, DBL_MAX⟩, ⟨Dbl.ofRat (3 / 10), Dbl.zero, 0, DBL_MAX⟩,
        ⟨Dbl.ofRat (33 / 10), Dbl.zero, 0, DBL_MAX⟩],
      [pt (5554439540423611 / 4503599627370496) 0 (-1)]⟩,
    by decide!, by decide!, rfl, by decide!, by decide!⟩


end KMeans
